import Mathlib

/-!
# Verification of the gofusretrodb workshop resource/rune aggregation engine

This file is a shallow embedding, in Lean 4, of the workshop-list resource
aggregation code of the gofusretrodb Go library:

* `LoadRecipeRecursive` (database.go, lines 1240-1289): recursive crafting-tree
  loader with a depth cap,
* `GetWorkshopListByID` (workshop_database.go, lines 40-62): list loading, which
  deliberately swallows recipe-load errors (`// Don't fail if recipe loading
  fails, just continue`),
* `GetAllResourcesForList` / `aggregateRecipeResources` (workshop_database.go,
  lines 203-229, 282-330): multiplicative resource aggregation over recipe
  trees into a map keyed by item id,
* `GetResourcesGroupedByAuctionHouse` (workshop_database.go, lines 231-280):
  grouping by auction-house display name, ordered by display order,
* `GetUniqueRunesForList` (workshop_database.go, lines 381-456): rune
  deduplication, name fallback and weight-descending sort.

Modelling conventions:

* The GORM database is modelled as a `Store` of row lists.  A query with a
  `First` call becomes `List.find?` on the rows (first match wins); a query
  with a condition becomes `List.filter`.  Every `Preload("...Translations",
  "language = ?", language)` in the source filters the preloaded translation
  collection by the requested language, so every loaded translation list in
  this model is language-filtered exactly as in the queries.  Associations
  that no query preloads stay at their GORM zero value: in particular,
  NO query in the workshop pipeline preloads `Type.AuctionHouse` (or its
  translations), so every loaded item type carries a nil auction house and
  the auction-house branch of `aggregateRecipeResources` (workshop_database.go
  304-310) never fires — the store's auction-house tables are modelled but
  provably never read.
* Go `int` becomes `Int`, `uint` becomes `Nat`, `float64` weights become `ℚ`
  (the source only ever compares weights, never does float arithmetic on
  them, and all stored weights are decimal literals).
* Go maps keyed by item id / rune id / name are modelled as lists of entries
  with the map's keys kept in first-insertion order.  Go's map iteration
  order is unspecified; wherever a claim depends on the order in which map
  entries are iterated or on tie behaviour of `sort.Slice`, the proof goes
  through the relational contract `IsSortSliceResult` below instead of the
  deterministic list model.
* `sort.Slice(x, less)` guarantees only that the result is a permutation of
  the input with no pair out of order (it is documented as NOT stable).  The
  executable model uses the stable `List.insertionSort` as one deterministic
  refinement of that contract; `IsSortSliceResult` states the contract itself.
* In-place mutation of an item (`LoadRecipeRecursive` attaches recipes to the
  tree even when it later returns an error) is modelled by returning the
  partially mutated item together with the optional error.
-/

namespace GofusRetroDB

/-! ## Store rows (the persisted entities, one structure per GORM table) -/

/-- Row of the `item_translations` table (fields used by the workshop code). -/
structure ItemTranslationRow where
  itemID : Nat
  language : String
  name : String
deriving Repr, DecidableEq

/-- Row of the `items` table (fields used by the workshop code). -/
structure ItemRow where
  id : Nat
  ankaId : Int
  typeAnkaId : Int
  gfxID : Int
deriving Repr, DecidableEq

/-- Row of the `item_type_translations` table. -/
structure ItemTypeTranslationRow where
  itemTypeID : Nat
  language : String
  name : String
deriving Repr, DecidableEq

/-- Row of the `item_types` table: `AnkaId` is the join key from
`ItemModel.TypeAnkaId`, `AuctionHouseID` the optional marketplace link. -/
structure ItemTypeRow where
  id : Nat
  ankaId : Int
  auctionHouseID : Option Nat
deriving Repr, DecidableEq

/-- Row of the `auction_houses` table. -/
structure AuctionHouseRow where
  id : Nat
  code : String
  displayOrder : Int
deriving Repr, DecidableEq

/-- Row of the `auction_house_translations` table. -/
structure AuctionHouseTranslationRow where
  auctionHouseID : Nat
  language : String
  name : String
deriving Repr, DecidableEq

/-- Row of the `recipes` table: a recipe belongs to the item `itemID`. -/
structure RecipeRow where
  id : Nat
  itemID : Nat
deriving Repr, DecidableEq

/-- Row of the `ingredients` table: `quantity` units of item `itemID`
consumed by recipe `recipeID`. -/
structure IngredientRow where
  recipeID : Nat
  itemID : Nat
  quantity : Int
deriving Repr, DecidableEq

/-- Row of the `item_stats` table (fields used by the rune extractor). -/
structure ItemStatRow where
  itemID : Nat
  statTypeID : Int
deriving Repr, DecidableEq

/-- Row of the `runes` table.  `weight` is a `float64` in Go; it is only ever
compared, so it is modelled as `ℚ`. -/
structure RuneRow where
  id : Int
  code : String
  statTypeID : Int
  tier : String
  weight : ℚ
  itemID : Option Nat
deriving Repr, DecidableEq

/-- Row of the `workshop_lists` table (fields used by the workshop code). -/
structure WorkshopListRow where
  id : Nat
  userID : Nat
deriving Repr, DecidableEq

/-- Row of the `workshop_list_items` table. -/
structure WorkshopListItemRow where
  workshopListID : Nat
  itemID : Nat
  quantity : Int
deriving Repr, DecidableEq

/-- The database contents: one list of rows per table. -/
structure Store where
  items : List ItemRow
  itemTranslations : List ItemTranslationRow
  itemTypes : List ItemTypeRow
  itemTypeTranslations : List ItemTypeTranslationRow
  auctionHouses : List AuctionHouseRow
  auctionHouseTranslations : List AuctionHouseTranslationRow
  recipes : List RecipeRow
  ingredients : List IngredientRow
  itemStats : List ItemStatRow
  runes : List RuneRow
  workshopLists : List WorkshopListRow
  workshopListItems : List WorkshopListItemRow
deriving Repr

/-! ## Loaded (in-memory) entities

These mirror the GORM model structs as they look after preloading: each
translation list holds only rows matching the requested language, because
every `Preload` of a translation collection in the workshop code carries the
condition `"language = ?", language`. -/

/-- A loaded translation (`ItemTranslationModel` / `AuctionHouseTranslationModel`
after preloading: the workshop code reads only `Language` and `Name`). -/
structure TranslationView where
  language : String
  name : String
deriving Repr, DecidableEq

/-- A loaded `AuctionHouseModel` with its (language-filtered) translations. -/
structure AuctionHouseView where
  id : Nat
  code : String
  displayOrder : Int
  translations : List TranslationView
deriving Repr, DecidableEq

/-- A loaded `ItemTypeModel` with its optional auction house. -/
structure ItemTypeView where
  ankaId : Int
  auctionHouse : Option AuctionHouseView
  translations : List TranslationView
deriving Repr, DecidableEq

/-- The rune's underlying item (`RuneModel.Item`), loaded with its
language-filtered translations. -/
structure RuneItemView where
  ankaId : Int
  typeAnkaId : Int
  gfxID : Int
  translations : List TranslationView
deriving Repr, DecidableEq

/-- A loaded `RuneModel`. -/
structure RuneView where
  id : Int
  code : String
  tier : String
  weight : ℚ
  item : Option RuneItemView
deriving Repr, DecidableEq

/-- A loaded `StatTypeModel` with its associated runes. -/
structure StatTypeView where
  id : Int
  runes : List RuneView
deriving Repr, DecidableEq

/-- A loaded `ItemStatModel` (the rune extractor only reads `StatType.Runes`). -/
structure ItemStatView where
  statType : StatTypeView
deriving Repr, DecidableEq

/-- An ingredient of a loaded recipe, parameterized by the item type so that
`ItemModel` below can nest recursively (`IngredientModel.ItemID`,
`IngredientModel.Quantity`, `IngredientModel.Item`). -/
structure IngredientOf (α : Type) where
  itemID : Nat
  quantity : Int
  item : α
deriving Repr, DecidableEq

/-- A loaded recipe (`RecipeModel.ItemID`, `RecipeModel.Ingredients`),
parameterized like `IngredientOf`. -/
structure RecipeOf (α : Type) where
  itemID : Nat
  ingredients : List (IngredientOf α)
deriving Repr, DecidableEq

/-- A loaded `ItemModel`: the crafting tree node.  `recipe` is `none` exactly
when no recipe is attached (Go `Recipe *RecipeModel` being nil). -/
inductive ItemModel : Type where
  | mk (id : Nat) (ankaId : Int) (typeAnkaId : Int) (gfxID : Int)
       (translations : List TranslationView)
       (type : Option ItemTypeView)
       (stats : List ItemStatView)
       (recipe : Option (RecipeOf ItemModel))

/-- The loaded ingredient type of the crafting tree. -/
abbrev IngredientModel : Type := IngredientOf ItemModel

/-- The loaded recipe type of the crafting tree. -/
abbrev RecipeModel : Type := RecipeOf ItemModel

def ItemModel.id : ItemModel → Nat
  | .mk i _ _ _ _ _ _ _ => i

def ItemModel.ankaId : ItemModel → Int
  | .mk _ a _ _ _ _ _ _ => a

def ItemModel.typeAnkaId : ItemModel → Int
  | .mk _ _ t _ _ _ _ _ => t

def ItemModel.gfxID : ItemModel → Int
  | .mk _ _ _ g _ _ _ _ => g

def ItemModel.translations : ItemModel → List TranslationView
  | .mk _ _ _ _ ts _ _ _ => ts

def ItemModel.type : ItemModel → Option ItemTypeView
  | .mk _ _ _ _ _ ty _ _ => ty

def ItemModel.stats : ItemModel → List ItemStatView
  | .mk _ _ _ _ _ _ st _ => st

def ItemModel.recipe : ItemModel → Option (RecipeOf ItemModel)
  | .mk _ _ _ _ _ _ _ r => r

/-- Replace the attached recipe (the loader's `item.Recipe = &recipe`). -/
def ItemModel.withRecipe : ItemModel → RecipeOf ItemModel → ItemModel
  | .mk i a t g ts ty st _, r => .mk i a t g ts ty st (some r)

/-- The zero value of Go's `ItemModel` struct: what an ingredient's `Item`
field holds before (or instead of) being loaded. -/
def zeroItemModel : ItemModel := .mk 0 0 0 0 [] none [] none

theorem ItemModel.sizeOf_recipe_lt (it : ItemModel) : sizeOf it.recipe < sizeOf it := by
  cases it with
  | mk i a t g ts ty st r => simp [ItemModel.recipe]

theorem IngredientOf.sizeOf_item_lt (ing : IngredientOf ItemModel) :
    sizeOf ing.item < sizeOf ing := by
  cases ing
  simp

theorem RecipeOf.sizeOf_ingredients_lt (r : RecipeOf ItemModel) :
    sizeOf r.ingredients < sizeOf r := by
  cases r
  simp

/-! ## Catalog Store lookups

Each definition models one GORM query of the source, on the `Store` rows. -/

/-- `Preload("Translations", "language = ?", language)` for an item: the
item's translation rows restricted to the requested language, in row order. -/
def itemTranslationsFor (s : Store) (itemID : Nat) (language : String) :
    List TranslationView :=
  (s.itemTranslations.filter
      (fun t => t.itemID == itemID && t.language == language)).map
    (fun t => { language := t.language, name := t.name })

/-- `Preload("Type.Translations", "language = ?", language)`: resolve an
item's type via `TypeAnkaId -> ItemTypeModel.AnkaId`, with the type's
language-filtered translations.  `Type.AuctionHouse` is NOT preloaded by
this query — nor by any other query in the workshop pipeline
(database.go 1270-1273 and workshop_database.go 43-48 preload only
translation collections) — so the loaded type's auction-house pointer is
always GORM's zero value, `nil`: the field is `none` here. -/
def itemTypeFor (s : Store) (typeAnkaId : Int) (language : String) :
    Option ItemTypeView :=
  (s.itemTypes.find? (fun t => t.ankaId == typeAnkaId)).map
    (fun t =>
      { ankaId := t.ankaId
        auctionHouse := none
        translations :=
          (s.itemTypeTranslations.filter
              (fun tr => tr.itemTypeID == t.id && tr.language == language)).map
            (fun tr => { language := tr.language, name := tr.name }) })

/-- The per-ingredient item lookup of `LoadRecipeRecursive` (database.go,
lines 1268-1277): the item with its language-filtered translations and its
type; no stats and no recipe are loaded here (the recipe is attached by the
recursive call).  `none` models the lookup failing (dangling item id). -/
def findItemWithType (s : Store) (itemID : Nat) (language : String) :
    Option ItemModel :=
  (s.items.find? (fun it => it.id == itemID)).map
    (fun it =>
      .mk it.id it.ankaId it.typeAnkaId it.gfxID
        (itemTranslationsFor s it.id language)
        (itemTypeFor s it.typeAnkaId language)
        []
        none)

/-- Resolve a stat type with its associated runes
(`Preload("Items.Item.Stats.StatType.Runes.Item.Translations", "language = ?",
language)`): each rune carries its underlying item with language-filtered
translations. -/
def statTypeFor (s : Store) (statTypeID : Int) (language : String) :
    StatTypeView :=
  { id := statTypeID
    runes :=
      (s.runes.filter (fun r => r.statTypeID == statTypeID)).map
        (fun r =>
          { id := r.id, code := r.code, tier := r.tier, weight := r.weight
            item := r.itemID.bind (fun iid =>
              (s.items.find? (fun it => it.id == iid)).map
                (fun it =>
                  { ankaId := it.ankaId, typeAnkaId := it.typeAnkaId
                    gfxID := it.gfxID
                    translations := itemTranslationsFor s iid language })) }) }

/-- The preloaded `Items.Item` of `GetWorkshopListByID` (workshop_database.go,
lines 43-48): translations, type and stats (with stat types and runes) are
preloaded; the recipe is attached afterwards by `LoadRecipeRecursive`.  A
missing item row leaves the zero value, as GORM leaves an absent association
at its zero value. -/
def findListItemBase (s : Store) (itemID : Nat) (language : String) : ItemModel :=
  match s.items.find? (fun it => it.id == itemID) with
  | none => zeroItemModel
  | some it =>
      .mk it.id it.ankaId it.typeAnkaId it.gfxID
        (itemTranslationsFor s it.id language)
        (itemTypeFor s it.typeAnkaId language)
        ((s.itemStats.filter (fun st => st.itemID == it.id)).map
          (fun st => { statType := statTypeFor s st.statTypeID language }))
        none

/-- The recipe lookup of `LoadRecipeRecursive` (database.go, lines 1248-1259):
first recipe row whose `item_id` matches, with its ingredient rows preloaded;
`none` is GORM's `ErrRecordNotFound` (a base material, not an error). -/
def findRecipeRows (s : Store) (itemID : Nat) :
    Option (RecipeRow × List IngredientRow) :=
  (s.recipes.find? (fun r => r.itemID == itemID)).map
    (fun r => (r, s.ingredients.filter (fun ing => ing.recipeID == r.id)))

/-! ## The recipe tree loader (`LoadRecipeRecursive`, database.go 1240-1289)

The Go function mutates `item` in place and returns an `error`; the model
returns the (possibly partially) mutated item together with the optional
error.  The Go recursion is guarded by `currentDepth >= maxDepth` and recurses
with `currentDepth+1`; the model recurses on the remaining fuel
`maxDepth - currentDepth`, which decreases by exactly one per level. -/

/-- One zero-valued ingredient: the `IngredientModel` as preloaded, before its
`Item` field is populated (Go zero value). -/
def zeroIngredient (row : IngredientRow) : IngredientModel :=
  { itemID := row.itemID, quantity := row.quantity, item := zeroItemModel }

/-- The ingredient loop of `LoadRecipeRecursive` (database.go 1264-1286): for
each ingredient row, load the ingredient item (failure is fatal), recursively
load its recipe (failure is fatal), then attach the loaded item.  On a fatal
error the loop stops: the failing and the remaining ingredients keep their
zero-valued `Item` (the source returns before `ingredient.Item = ingredientItem`
runs), while previously processed ingredients keep their loaded items. -/
def loadIngredientsWith (load : ItemModel → ItemModel × Option String)
    (find : Nat → Option ItemModel) :
    List IngredientRow → List IngredientModel × Option String
  | [] => ([], none)
  | row :: rest =>
      match find row.itemID with
      | none =>
          (zeroIngredient row :: rest.map zeroIngredient,
           some "failed to load ingredient item")
      | some base =>
          match load base with
          | (_, some e) =>
              (zeroIngredient row :: rest.map zeroIngredient, some e)
          | (loadedItem, none) =>
              let tailResult := loadIngredientsWith load find rest
              ({ itemID := row.itemID, quantity := row.quantity,
                 item := loadedItem } :: tailResult.1,
               tailResult.2)

/-- `LoadRecipeRecursive` by remaining fuel: fuel `0` is the
`currentDepth >= maxDepth` guard (return the item untouched, no error);
otherwise look up the recipe (absent recipe: base material, no error), attach
it, and process the ingredients one level deeper. -/
def loadRecipeFuel (s : Store) (language : String) :
    Nat → ItemModel → ItemModel × Option String
  | 0, item => (item, none)
  | fuel + 1, item =>
      match findRecipeRows s item.id with
      | none => (item, none)
      | some (r, rows) =>
          let loaded := loadIngredientsWith
            (fun it => loadRecipeFuel s language fuel it)
            (fun iid => findItemWithType s iid language) rows
          (item.withRecipe { itemID := r.itemID, ingredients := loaded.1 },
           loaded.2)

/-- `LoadRecipeRecursive(item, language, maxDepth, currentDepth)`: the source
signature, with fuel `maxDepth - currentDepth`. -/
def LoadRecipeRecursive (s : Store) (language : String)
    (maxDepth currentDepth : Nat) (item : ItemModel) :
    ItemModel × Option String :=
  loadRecipeFuel s language (maxDepth - currentDepth) item

/-! ## Workshop list loading (`GetWorkshopListByID`, workshop_database.go 40-62) -/

/-- A loaded `WorkshopListItemModel` (fields the resource/rune code reads). -/
structure LoadedListItem where
  itemID : Nat
  quantity : Int
  item : ItemModel

/-- A loaded `WorkshopListModel` with its items. -/
structure LoadedWorkshopList where
  id : Nat
  items : List LoadedListItem

/-- `GetWorkshopListByID`: find the list row (failure is an error), load each
list item's item with its translations/type/stats, then run
`LoadRecipeRecursive(&item, language, 3, 0)` on it.  The source deliberately
DISCARDS the loader's error (`// Don't fail if recipe loading fails, just
continue`) and keeps the partially mutated item; the model does the same by
dropping the error component. -/
def GetWorkshopListByID (s : Store) (listID : Nat) (language : String) :
    Except String LoadedWorkshopList :=
  match s.workshopLists.find? (fun l => l.id == listID) with
  | none => .error "failed to get workshop list"
  | some _ =>
      .ok
        { id := listID
          items :=
            (s.workshopListItems.filter
                (fun r => r.workshopListID == listID)).map
              (fun row =>
                { itemID := row.itemID, quantity := row.quantity
                  item := (LoadRecipeRecursive s language 3 0
                    (findListItemBase s row.itemID language)).1 }) }

/-! ## Resource aggregation (workshop_database.go 188-330) -/

/-- `ResourceRequirement` (workshop_database.go 190-201). -/
structure ResourceRequirement where
  itemID : Nat
  itemAnkaID : Int
  typeAnkaID : Int
  gfxID : Int
  name : String
  totalNeeded : Int
  auctionHouseID : Option Nat
  auctionHouseName : String
  auctionHouseDisplayOrder : Int
deriving Repr, DecidableEq

/-- Creation of a new map entry (workshop_database.go 295-322): display name
is the first loaded translation's name (empty if none); auction house data is
taken from the item's type when `Type != nil && Type.AuctionHouse != nil`,
with the display name being the first loaded auction-house translation's name
(empty if none). -/
def mkResourceRequirement (ing : IngredientModel) (needed : Int) :
    ResourceRequirement :=
  let name := match ing.item.translations with
    | [] => ""
    | t :: _ => t.name
  let ah := match ing.item.type with
    | none => ((none : Option Nat), "", (0 : Int))
    | some ty =>
        match ty.auctionHouse with
        | none => ((none : Option Nat), "", (0 : Int))
        | some a =>
            (some a.id,
             (match a.translations with
              | [] => ""
              | t :: _ => t.name),
             a.displayOrder)
  { itemID := ing.itemID
    itemAnkaID := ing.item.ankaId
    typeAnkaID := ing.item.typeAnkaId
    gfxID := ing.item.gfxID
    name := name
    totalNeeded := needed
    auctionHouseID := ah.1
    auctionHouseName := ah.2.1
    auctionHouseDisplayOrder := ah.2.2 }

/-- The `resources` Go map (`map[uint]*ResourceRequirement`), modelled as the
list of its entries in first-insertion order; keys are the `itemID` fields. -/
abbrev ResourceMap : Type := List ResourceRequirement

/-- Record one ingredient demand into the map (workshop_database.go 291-323):
if an entry for the item id exists, add `needed` to its running total,
otherwise insert a fresh entry. -/
def recordIngredient (resources : ResourceMap) (ing : IngredientModel)
    (needed : Int) : ResourceMap :=
  if resources.any (fun r => r.itemID == ing.itemID) then
    resources.map (fun r =>
      if r.itemID == ing.itemID then
        { r with totalNeeded := r.totalNeeded + needed }
      else r)
  else
    resources ++ [mkResourceRequirement ing needed]

mutual
/-- `aggregateRecipeResources(recipe, multiplier, resources)`
(workshop_database.go 282-330): the `recipe == nil` guard, then the
ingredient loop. -/
def aggregateRecipeResources :
    Option RecipeModel → Int → ResourceMap → ResourceMap
  | none, _, resources => resources
  | some recipe, multiplier, resources =>
      aggregateIngredients recipe.ingredients multiplier resources
termination_by r _ _ => sizeOf r
decreasing_by
  have h := RecipeOf.sizeOf_ingredients_lt recipe
  simp
  omega

/-- The ingredient loop of `aggregateRecipeResources` (workshop_database.go
288-329): `needed := ingredient.Quantity * multiplier`; always record the
ingredient; if its item carries a recipe, recurse into it with multiplier
`needed`; then continue with the remaining ingredients. -/
def aggregateIngredients :
    List IngredientModel → Int → ResourceMap → ResourceMap
  | [], _, resources => resources
  | ing :: rest, multiplier, resources =>
      let needed := ing.quantity * multiplier
      aggregateIngredients rest multiplier
        (aggregateRecipeResources ing.item.recipe needed
          (recordIngredient resources ing needed))
termination_by l _ _ => sizeOf l
decreasing_by
  · have h1 := ItemModel.sizeOf_recipe_lt ing.item
    have h2 := IngredientOf.sizeOf_item_lt ing
    simp
    omega
  · simp
end

/-- The entry loop of `GetAllResourcesForList` (workshop_database.go 213-220):
entries whose item has no recipe are skipped; the others seed the aggregation
with multiplier `listItem.Quantity`. -/
def aggregateListResources :
    List LoadedListItem → ResourceMap → ResourceMap
  | [], resources => resources
  | li :: rest, resources =>
      match li.item.recipe with
      | none => aggregateListResources rest resources
      | some r =>
          aggregateListResources rest
            (aggregateRecipeResources (some r) li.quantity resources)

/-- `GetAllResourcesForList(listID, language)` (workshop_database.go 203-229):
load the list (propagating ONLY the list-lookup error), aggregate all entries
into the resource map, and return the map's entries. -/
def GetAllResourcesForList (s : Store) (listID : Nat) (language : String) :
    Except String (List ResourceRequirement) :=
  match GetWorkshopListByID s listID language with
  | .error e => .error e
  | .ok list => .ok (aggregateListResources list.items [])

/-! ## Grouping by auction house (workshop_database.go 231-280) -/

/-- Append a resource to its name-keyed bucket (`grouped[key] = append(...)`),
creating the bucket on first occurrence; buckets are kept in first-insertion
order. -/
def appendToGroup (grouped : List (String × List ResourceRequirement))
    (key : String) (res : ResourceRequirement) :
    List (String × List ResourceRequirement) :=
  if grouped.any (fun kv => kv.1 == key) then
    grouped.map (fun kv => if kv.1 == key then (kv.1, kv.2 ++ [res]) else kv)
  else
    grouped ++ [(key, [res])]

/-- The bucket of a key (`grouped[key]`; an absent key reads as the empty
slice in Go). -/
def groupOf (grouped : List (String × List ResourceRequirement))
    (key : String) : List ResourceRequirement :=
  match grouped.find? (fun kv => kv.1 == key) with
  | some kv => kv.2
  | none => []

/-- The `ahDisplayOrder` map (workshop_database.go 243-251): display order of
the FIRST resource seen for each auction-house name. -/
def displayOrderMap (resources : List ResourceRequirement) :
    List (String × Int) :=
  resources.foldl
    (fun m res =>
      if m.any (fun kv => kv.1 == res.auctionHouseName) then m
      else m ++ [(res.auctionHouseName, res.auctionHouseDisplayOrder)])
    []

/-- `ahDisplayOrder[key]` (missing keys read as `0` in Go; the source only
ever looks up keys it stored). -/
def displayOrderOf (m : List (String × Int)) (key : String) : Int :=
  match m.find? (fun kv => kv.1 == key) with
  | some kv => kv.2
  | none => 0

/-- The `grouped` map of `GetResourcesGroupedByAuctionHouse` before sorting:
buckets keyed by `AuctionHouseName`, in first-insertion order. -/
def groupedByName (resources : List ResourceRequirement) :
    List (String × List ResourceRequirement) :=
  resources.foldl (fun g res => appendToGroup g res.auctionHouseName res) []

/-- The grouping/ordering core of `GetResourcesGroupedByAuctionHouse`
(workshop_database.go 241-279), as a function of the resource collection:
group the resources by auction-house name; order the non-empty names by
stored display order (`sort.Slice`, modelled by the insertion sort); append
`""` last iff its bucket is non-empty; sort every bucket alphabetically by
resource name (`sort.Slice` on `Name <`). -/
def groupResourcesByAuctionHouse (resources : List ResourceRequirement) :
    List (String × List ResourceRequirement) × List String :=
  let grouped := groupedByName resources
  let ahOrder := displayOrderMap resources
  let order := List.insertionSort
    (fun a b => displayOrderOf ahOrder a ≤ displayOrderOf ahOrder b)
    ((grouped.map Prod.fst).filter (fun k => k ≠ ""))
  let order := if (groupOf grouped "").length > 0 then order ++ [""] else order
  (grouped.map (fun kv =>
    (kv.1, List.insertionSort (fun a b => a.name ≤ b.name) kv.2)),
   order)

/-- `GetResourcesGroupedByAuctionHouse(listID, language)` (workshop_database.go
235-280). -/
def GetResourcesGroupedByAuctionHouse (s : Store) (listID : Nat)
    (language : String) :
    Except String (List (String × List ResourceRequirement) × List String) :=
  match GetAllResourcesForList s listID language with
  | .error e => .error e
  | .ok resources => .ok (groupResourcesByAuctionHouse resources)

/-! ## Rune extraction (workshop_database.go 367-456) -/

/-- `RuneRequirement` (workshop_database.go 370-379). -/
structure RuneRequirement where
  runeID : Int
  itemAnkaID : Int
  typeAnkaID : Int
  gfxID : Int
  name : String
  code : String
  tier : String
  weight : ℚ
deriving Repr, DecidableEq

/-- Build one `RuneRequirement` (workshop_database.go 403-439).  The display
name chain over the rune's loaded item: first translation whose language
matches AND whose name is non-empty (the `for ... break` loop); otherwise the
first loaded translation's name; if still empty, the rune's raw code. -/
def mkRuneRequirement (language : String) (rn : RuneView) : RuneRequirement :=
  let itemData := match rn.item with
    | none => ((0 : Int), (0 : Int), (0 : Int), "")
    | some it =>
        let name := match it.translations.find?
            (fun (t : TranslationView) => t.language == language && t.name != "") with
          | some t => t.name
          | none => ""
        let name := if name == "" && decide (it.translations.length > 0) then
            (match it.translations with
             | [] => ""
             | t :: _ => t.name)
          else name
        (it.ankaId, it.typeAnkaId, it.gfxID, name)
  let name := if itemData.2.2.2 == "" then rn.code else itemData.2.2.2
  { runeID := rn.id
    itemAnkaID := itemData.1
    typeAnkaID := itemData.2.1
    gfxID := itemData.2.2.1
    name := name
    code := rn.code
    tier := rn.tier
    weight := rn.weight }

/-- The inner rune loop (workshop_database.go 398-440): runes already present
in the map (by rune id) are skipped — the first occurrence wins; new runes are
recorded.  The map is kept as its entries in first-insertion order. -/
def addRuneList (language : String) :
    List RuneView → List RuneRequirement → List RuneRequirement
  | [], acc => acc
  | rn :: rest, acc =>
      addRuneList language rest
        (if acc.any (fun r => r.runeID == rn.id) then acc
         else acc ++ [mkRuneRequirement language rn])

/-- The stat loop (workshop_database.go 393-441); a stat type with no runes
contributes nothing (the `len(...) == 0` continue). -/
def addStatRunes (language : String) :
    List ItemStatView → List RuneRequirement → List RuneRequirement
  | [], acc => acc
  | st :: rest, acc =>
      addStatRunes language rest (addRuneList language st.statType.runes acc)

/-- The list-item loop (workshop_database.go 391-442). -/
def collectListRunes (language : String) :
    List LoadedListItem → List RuneRequirement → List RuneRequirement
  | [], acc => acc
  | li :: rest, acc =>
      collectListRunes language rest (addStatRunes language li.item.stats acc)

/-- `GetUniqueRunesForList(listID, language)` (workshop_database.go 381-456):
load the list, collect the deduplicated runes, sort by weight descending
(`sort.Slice` on `Weight >`, modelled by the insertion sort on `≥`). -/
def GetUniqueRunesForList (s : Store) (listID : Nat) (language : String) :
    Except String (List RuneRequirement) :=
  match GetWorkshopListByID s listID language with
  | .error e => .error e
  | .ok list =>
      .ok (List.insertionSort (fun a b => b.weight ≤ a.weight)
        (collectListRunes language list.items []))

/-! ## The `sort.Slice` contract

Go's `sort.Slice(x, less)` sorts `x` according to `less` but "is not
guaranteed to be stable" (its documentation); the only guarantee is that the
result is a permutation of the input with no pair out of order.  Claims about
tie behaviour of the source's sorts are settled against this contract. -/

/-- `output` is a possible result of `sort.Slice(input, less)`: a permutation
of `input` in which no later element is `less` than an earlier one.  Stability
(ties keeping their input order) is NOT part of the contract. -/
def IsSortSliceResult {α : Type} (less : α → α → Bool)
    (input output : List α) : Prop :=
  input.Perm output ∧ output.Pairwise (fun a b => less b a = false)

/-! ## Claim C1 — error propagation of the aggregate pipeline

`LoadRecipeRecursive` does fail fast on a dangling ingredient id, but
`GetWorkshopListByID` (workshop_database.go 54-58) swallows that error
(`// Don't fail if recipe loading fails, just continue`), so
`GetAllResourcesForList` returns `.ok` with an aggregate computed from the
partially loaded trees — never the error the claim requires. -/

/-- Store in which workshop list 1 holds item 1 (quantity 2) whose recipe
requires 3 units of item id 99, and no item row with id 99 exists: the
dangling-ingredient scenario of claim C1. -/
def storeDangling : Store :=
  { items := [{ id := 1, ankaId := 11, typeAnkaId := 0, gfxID := 0 }]
    itemTranslations := [{ itemID := 1, language := "en", name := "Sword" }]
    itemTypes := []
    itemTypeTranslations := []
    auctionHouses := []
    auctionHouseTranslations := []
    recipes := [{ id := 10, itemID := 1 }]
    ingredients := [{ recipeID := 10, itemID := 99, quantity := 3 }]
    itemStats := []
    runes := []
    workshopLists := [{ id := 1, userID := 7 }]
    workshopListItems := [{ workshopListID := 1, itemID := 1, quantity := 2 }] }

/-- C1, counterexample.  On `storeDangling` — a list whose item's recipe
references the nonexistent ingredient item id 99 — the recursive loader does
return an error, yet `GetAllResourcesForList` returns no error at all: it
returns a non-empty aggregate computed from the half-loaded tree (the
dangling ingredient appears with zero-valued display data and its demand
3 × 2 = 6).  This contradicts the claim that the aggregation "returns an
error and no partial resource list". -/
theorem C1_counterexample :
    (LoadRecipeRecursive storeDangling "en" 3 0
        (findListItemBase storeDangling 1 "en")).2 =
      some "failed to load ingredient item" ∧
    GetAllResourcesForList storeDangling 1 "en" =
      .ok [{ itemID := 99, itemAnkaID := 0, typeAnkaID := 0, gfxID := 0,
             name := "", totalNeeded := 6, auctionHouseID := none,
             auctionHouseName := "", auctionHouseDisplayOrder := 0 }] := by
  constructor
  · simp [storeDangling, LoadRecipeRecursive, loadRecipeFuel, findListItemBase,
      findRecipeRows, findItemWithType, itemTranslationsFor, itemTypeFor,
      loadIngredientsWith, zeroIngredient, zeroItemModel, ItemModel.withRecipe,
      ItemModel.id, ItemModel.recipe]
  · simp [GetAllResourcesForList, GetWorkshopListByID, storeDangling,
      LoadRecipeRecursive, loadRecipeFuel, findListItemBase, findRecipeRows,
      findItemWithType, itemTranslationsFor, itemTypeFor, loadIngredientsWith,
      zeroIngredient, zeroItemModel, ItemModel.withRecipe, ItemModel.id,
      ItemModel.recipe, aggregateListResources, aggregateRecipeResources,
      aggregateIngredients, recordIngredient, mkResourceRequirement,
      ItemModel.translations, ItemModel.type, ItemModel.ankaId,
      ItemModel.typeAnkaId, ItemModel.gfxID]

/-- C1, amended.  The fail-fast policy holds only inside
`LoadRecipeRecursive`; `GetWorkshopListByID` swallows recipe-load errors, so
`GetAllResourcesForList` returns an error exactly when the workshop list row
itself cannot be found, and otherwise always returns `.ok` with the aggregate
of the (possibly partially loaded) trees — even when a recipe references a
nonexistent ingredient item id. -/
theorem C1_amended (s : Store) (listID : Nat) (language : String)
    (h : (s.workshopLists.find? (fun l => l.id == listID)).isSome = true) :
    ∃ rs, GetAllResourcesForList s listID language = .ok rs := by
  rcases Option.isSome_iff_exists.mp h with ⟨row, hrow⟩
  unfold GetAllResourcesForList GetWorkshopListByID
  rw [hrow]
  exact ⟨_, rfl⟩

/-- C1, witness for the amended theorem: applied to `storeDangling`, whose
list row 1 exists while its recipe tree cannot be fully loaded. -/
theorem C1_amended_witness :
    (storeDangling.workshopLists.find?
        (fun l => l.id == (1 : Nat))).isSome = true ∧
    ∃ rs, GetAllResourcesForList storeDangling 1 "en" = .ok rs :=
  ⟨by decide, C1_amended storeDangling 1 "en" (by decide)⟩

/-! ## Claim C2 — the depth cap of the recipe tree loader -/

/-- The items sitting at exact depth `d` of a loaded crafting tree (the root
is depth `0`; the items of the attached recipe's ingredients are one level
deeper). -/
def itemsAtDepth : ItemModel → Nat → List ItemModel
  | it, 0 => [it]
  | it, d + 1 =>
      match it.recipe with
      | none => []
      | some r => r.ingredients.flatMap (fun ing => itemsAtDepth ing.item d)

theorem ItemModel.withRecipe_recipe (it : ItemModel) (r : RecipeOf ItemModel) :
    (it.withRecipe r).recipe = some r := by
  cases it
  simp [ItemModel.withRecipe, ItemModel.recipe]

theorem ItemModel.withRecipe_id (it : ItemModel) (r : RecipeOf ItemModel) :
    (it.withRecipe r).id = it.id := by
  cases it
  simp [ItemModel.withRecipe, ItemModel.id]

theorem ItemModel.withRecipe_stats (it : ItemModel) (r : RecipeOf ItemModel) :
    (it.withRecipe r).stats = it.stats := by
  cases it
  simp [ItemModel.withRecipe, ItemModel.stats]

theorem zeroItemModel_recipe : zeroItemModel.recipe = none := rfl

theorem itemsAtDepth_of_recipe_none {it : ItemModel} (h : it.recipe = none)
    (d : Nat) : ∀ x ∈ itemsAtDepth it d, x.recipe = none := by
  cases d with
  | zero =>
      intro x hx
      simp [itemsAtDepth] at hx
      exact hx ▸ h
  | succ d =>
      intro x hx
      simp [itemsAtDepth, h] at hx

theorem findItemWithType_recipe_none {s : Store} {iid : Nat} {language : String}
    {it : ItemModel} (h : findItemWithType s iid language = some it) :
    it.recipe = none := by
  unfold findItemWithType at h
  rcases Option.map_eq_some'.mp h with ⟨row, _, rfl⟩
  rfl

theorem findItemWithType_id {s : Store} {iid : Nat} {language : String}
    {it : ItemModel} (h : findItemWithType s iid language = some it) :
    it.id = iid := by
  unfold findItemWithType at h
  rcases Option.map_eq_some'.mp h with ⟨row, hrow, rfl⟩
  have := List.find?_some hrow
  simp at this
  simpa [ItemModel.id] using this

/-! Behaviour equations of the loading loop, one per source branch. -/

theorem loadIngredientsWith_nil (load : ItemModel → ItemModel × Option String)
    (find : Nat → Option ItemModel) :
    loadIngredientsWith load find [] = ([], none) := rfl

theorem loadIngredientsWith_cons_missing
    (load : ItemModel → ItemModel × Option String)
    (find : Nat → Option ItemModel) {row : IngredientRow}
    (rest : List IngredientRow) (hf : find row.itemID = none) :
    loadIngredientsWith load find (row :: rest) =
      (zeroIngredient row :: rest.map zeroIngredient,
       some "failed to load ingredient item") := by
  simp [loadIngredientsWith, hf]

theorem loadIngredientsWith_cons_loadErr
    (load : ItemModel → ItemModel × Option String)
    (find : Nat → Option ItemModel) {row : IngredientRow}
    (rest : List IngredientRow) {base it : ItemModel} {e : String}
    (hf : find row.itemID = some base) (hl : load base = (it, some e)) :
    loadIngredientsWith load find (row :: rest) =
      (zeroIngredient row :: rest.map zeroIngredient, some e) := by
  simp [loadIngredientsWith, hf, hl]

theorem loadIngredientsWith_cons_ok
    (load : ItemModel → ItemModel × Option String)
    (find : Nat → Option ItemModel) {row : IngredientRow}
    (rest : List IngredientRow) {base it : ItemModel}
    (hf : find row.itemID = some base) (hl : load base = (it, none)) :
    loadIngredientsWith load find (row :: rest) =
      ({ itemID := row.itemID, quantity := row.quantity, item := it } ::
         (loadIngredientsWith load find rest).1,
       (loadIngredientsWith load find rest).2) := by
  simp [loadIngredientsWith, hf, hl]

theorem loadRecipeFuel_zero (s : Store) (language : String) (item : ItemModel) :
    loadRecipeFuel s language 0 item = (item, none) := rfl

theorem loadRecipeFuel_succ_noRecipe (s : Store) (language : String)
    (fuel : Nat) {item : ItemModel} (h : findRecipeRows s item.id = none) :
    loadRecipeFuel s language (fuel + 1) item = (item, none) := by
  simp [loadRecipeFuel, h]

theorem loadRecipeFuel_succ_found (s : Store) (language : String) (fuel : Nat)
    {item : ItemModel} {r : RecipeRow} {rows : List IngredientRow}
    (h : findRecipeRows s item.id = some (r, rows)) :
    loadRecipeFuel s language (fuel + 1) item =
      (item.withRecipe
        { itemID := r.itemID
          ingredients := (loadIngredientsWith
            (fun it => loadRecipeFuel s language fuel it)
            (fun iid => findItemWithType s iid language) rows).1 },
       (loadIngredientsWith (fun it => loadRecipeFuel s language fuel it)
         (fun iid => findItemWithType s iid language) rows).2) := by
  simp [loadRecipeFuel, h]

/-- Every ingredient produced by the loading loop has either the zero-valued
item (lookup failed, recursive load failed, or past the failure point) or the
result of recursively loading a found item. -/
theorem loadIngredientsWith_item_shape
    (load : ItemModel → ItemModel × Option String)
    (find : Nat → Option ItemModel) (rows : List IngredientRow) :
    ∀ ing ∈ (loadIngredientsWith load find rows).1,
      ing.item = zeroItemModel ∨
      ∃ iid base, find iid = some base ∧ ing.item = (load base).1 := by
  induction rows with
  | nil => intro ing h; simp [loadIngredientsWith_nil] at h
  | cons row rest ih =>
      intro ing h
      cases hf : find row.itemID with
      | none =>
          rw [loadIngredientsWith_cons_missing load find rest hf] at h
          simp [zeroIngredient] at h
          rcases h with h | ⟨r, _, h⟩
          · left; rw [h]
          · left; rw [← h]
      | some base =>
          cases hl : load base with
          | mk loadedItem err =>
              cases err with
              | some e =>
                  rw [loadIngredientsWith_cons_loadErr load find rest hf hl] at h
                  simp [zeroIngredient] at h
                  rcases h with h | ⟨r, _, h⟩
                  · left; rw [h]
                  · left; rw [← h]
              | none =>
                  rw [loadIngredientsWith_cons_ok load find rest hf hl] at h
                  rcases List.mem_cons.mp h with rfl | hmem
                  · right
                    exact ⟨row.itemID, base, hf, by rw [hl]⟩
                  · exact ih ing hmem

/-- Depth cap of the loader: in the tree returned with `fuel` remaining
levels, every item at depth at least `fuel` has no recipe attached (given a
root whose recipe starts unattached, as for every item the pipeline loads). -/
theorem loadRecipeFuel_depth_cap (s : Store) (language : String) :
    ∀ (fuel : Nat) (item : ItemModel) (d : Nat), item.recipe = none →
      fuel ≤ d →
      ∀ x ∈ itemsAtDepth (loadRecipeFuel s language fuel item).1 d,
        x.recipe = none := by
  intro fuel
  induction fuel with
  | zero =>
      intro item d hnone _ x hx
      exact itemsAtDepth_of_recipe_none hnone d x hx
  | succ fuel ih =>
      intro item d hnone hfd x hx
      cases hr : findRecipeRows s item.id with
      | none =>
          rw [loadRecipeFuel_succ_noRecipe s language fuel hr] at hx
          exact itemsAtDepth_of_recipe_none hnone d x hx
      | some rrows =>
          rw [loadRecipeFuel_succ_found s language fuel
            (by rw [hr])] at hx
          obtain ⟨d, rfl⟩ : ∃ d', d = d' + 1 := ⟨d - 1, by omega⟩
          simp only [itemsAtDepth, ItemModel.withRecipe_recipe] at hx
          rw [List.mem_flatMap] at hx
          rcases hx with ⟨ing, hing, hx⟩
          rcases loadIngredientsWith_item_shape _ _ _ ing hing with
            hz | ⟨iid, base, hfind, hload⟩
          · exact @itemsAtDepth_of_recipe_none zeroItemModel rfl d x (hz ▸ hx)
          · rw [hload] at hx
            exact ih base d (findItemWithType_recipe_none hfind)
              (by omega) x hx

/-- `HasRecipeChain s itemID n`: starting at `itemID` the store offers at
least `n` further recipe levels: a recipe row for the item, one of whose
ingredient rows continues the chain. -/
inductive HasRecipeChain (s : Store) : Nat → Nat → Prop where
  | zero (itemID : Nat) : HasRecipeChain s itemID 0
  | succ {itemID n : Nat} (r : RecipeRow) (rows : List IngredientRow)
      (row : IngredientRow)
      (hrec : findRecipeRows s itemID = some (r, rows)) (hrow : row ∈ rows)
      (htail : HasRecipeChain s row.itemID n) : HasRecipeChain s itemID (n + 1)

/-- When the loading loop reports no error, every ingredient row was resolved
to an item that was itself recursively loaded without error, and the
resulting ingredient is in the output. -/
theorem loadIngredientsWith_of_no_error
    (load : ItemModel → ItemModel × Option String)
    (find : Nat → Option ItemModel) (rows : List IngredientRow)
    (hok : (loadIngredientsWith load find rows).2 = none) :
    ∀ row ∈ rows, ∃ base, find row.itemID = some base ∧
      (load base).2 = none ∧
      ({ itemID := row.itemID, quantity := row.quantity,
         item := (load base).1 } : IngredientModel) ∈
        (loadIngredientsWith load find rows).1 := by
  induction rows with
  | nil => intro row h; simp at h
  | cons first rest ih =>
      intro row hrow
      cases hf : find first.itemID with
      | none =>
          rw [loadIngredientsWith_cons_missing load find rest hf] at hok
          simp at hok
      | some base =>
          cases hl : load base with
          | mk loadedItem err =>
              cases err with
              | some e =>
                  rw [loadIngredientsWith_cons_loadErr load find rest hf hl]
                    at hok
                  simp at hok
              | none =>
                  rw [loadIngredientsWith_cons_ok load find rest hf hl]
                    at hok ⊢
                  rcases List.mem_cons.mp hrow with rfl | hmem
                  · exact ⟨base, hf, by rw [hl], by rw [hl]; simp⟩
                  · rcases ih hok row hmem with ⟨b, hfb, hlb, hout⟩
                    exact ⟨b, hfb, hlb, by simp [hout]⟩

/-- Tightness of the depth cap: if the store offers a recipe chain of at
least `fuel` levels from the root (`fuel ≥ 1`) and the load reports no
error, then some item at depth `fuel - 1` of the result has a recipe
attached. -/
theorem loadRecipeFuel_depth_tight (s : Store) (language : String) :
    ∀ (fuel : Nat) (item : ItemModel) (n : Nat), 1 ≤ fuel → fuel ≤ n →
      HasRecipeChain s item.id n →
      (loadRecipeFuel s language fuel item).2 = none →
      ∃ x ∈ itemsAtDepth (loadRecipeFuel s language fuel item).1 (fuel - 1),
        x.recipe.isSome = true := by
  intro fuel
  induction fuel with
  | zero => intro item n h; omega
  | succ fuel ih =>
      intro item n _ hfn hchain hok
      cases hchain with
      | zero => omega
      | succ r rows row hrec hrow htail =>
          rename_i n'
          rw [loadRecipeFuel_succ_found s language fuel hrec] at hok ⊢
          cases fuel with
          | zero =>
              refine ⟨item.withRecipe
                { itemID := r.itemID
                  ingredients := (loadIngredientsWith
                    (fun it => loadRecipeFuel s language 0 it)
                    (fun iid => findItemWithType s iid language) rows).1 },
                ?_, ?_⟩
              · simp [itemsAtDepth]
              · rw [ItemModel.withRecipe_recipe]; rfl
          | succ fuel =>
              simp only at hok
              rcases loadIngredientsWith_of_no_error _ _ rows hok row hrow with
                ⟨base, hfind, hloadok, hout⟩
              have hid : base.id = row.itemID := findItemWithType_id hfind
              rcases ih base n' (by omega) (by omega) (hid ▸ htail) hloadok with
                ⟨x, hxmem, hxrec⟩
              refine ⟨x, ?_, hxrec⟩
              have hd : (fuel + 1 + 1) - 1 = (fuel + 1 - 1) + 1 := by omega
              rw [hd]
              simp only [itemsAtDepth, ItemModel.withRecipe_recipe]
              rw [List.mem_flatMap]
              exact ⟨_, hout, hxmem⟩

/-- A store with a pure crafting chain 0 → 1 → 2 → 3 → 4 → 5 (each item's
recipe needs one unit of the next), so item 0 has a recipe chain of length 5:
longer than the deployed `maxDepth` of 3. -/
def chainStore : Store :=
  { items := [{ id := 0, ankaId := 0, typeAnkaId := 0, gfxID := 0 },
              { id := 1, ankaId := 0, typeAnkaId := 0, gfxID := 0 },
              { id := 2, ankaId := 0, typeAnkaId := 0, gfxID := 0 },
              { id := 3, ankaId := 0, typeAnkaId := 0, gfxID := 0 },
              { id := 4, ankaId := 0, typeAnkaId := 0, gfxID := 0 },
              { id := 5, ankaId := 0, typeAnkaId := 0, gfxID := 0 }]
    itemTranslations := []
    itemTypes := []
    itemTypeTranslations := []
    auctionHouses := []
    auctionHouseTranslations := []
    recipes := [{ id := 100, itemID := 0 }, { id := 101, itemID := 1 },
                { id := 102, itemID := 2 }, { id := 103, itemID := 3 },
                { id := 104, itemID := 4 }]
    ingredients := [{ recipeID := 100, itemID := 1, quantity := 1 },
                    { recipeID := 101, itemID := 2, quantity := 1 },
                    { recipeID := 102, itemID := 3, quantity := 1 },
                    { recipeID := 103, itemID := 4, quantity := 1 },
                    { recipeID := 104, itemID := 5, quantity := 1 }]
    itemStats := []
    runes := []
    workshopLists := []
    workshopListItems := [] }

/-- C2: the depth cap of `LoadRecipeRecursive`.  (1) Every item at depth at
least `maxDepth - currentDepth` of the returned tree has no recipe attached
(for a root entering the load with no recipe attached, as all loaded items
do), even when the store holds one.  (2) Tightness: whenever the store offers
a recipe chain of length at least `maxDepth ≥ 1` from the root and the load
reports no error, some item at depth exactly `maxDepth - 1` carries a recipe.
(3) Concretely, on a chain of 5 recipes loaded with the deployed
`maxDepth = 3` from depth 0: no error is reported (silent truncation), the
depth-2 item still has its recipe, and the depth-3 item has none although the
store holds one for it. -/
theorem C2_depth_cap :
    (∀ (s : Store) (language : String) (maxDepth currentDepth : Nat)
        (item : ItemModel) (d : Nat), item.recipe = none →
        maxDepth - currentDepth ≤ d →
        ∀ x ∈ itemsAtDepth
            (LoadRecipeRecursive s language maxDepth currentDepth item).1 d,
          x.recipe = none) ∧
    (∀ (s : Store) (language : String) (maxDepth n : Nat) (item : ItemModel),
        1 ≤ maxDepth → maxDepth ≤ n → HasRecipeChain s item.id n →
        (LoadRecipeRecursive s language maxDepth 0 item).2 = none →
        ∃ x ∈ itemsAtDepth
            (LoadRecipeRecursive s language maxDepth 0 item).1 (maxDepth - 1),
          x.recipe.isSome = true) ∧
    ((LoadRecipeRecursive chainStore "en" 3 0
        (findListItemBase chainStore 0 "en")).2 = none ∧
     (itemsAtDepth (LoadRecipeRecursive chainStore "en" 3 0
          (findListItemBase chainStore 0 "en")).1 2).map
        (fun x => x.recipe.isSome) = [true] ∧
     (itemsAtDepth (LoadRecipeRecursive chainStore "en" 3 0
          (findListItemBase chainStore 0 "en")).1 3).map
        (fun x => x.recipe.isSome) = [false]) := by
  refine ⟨?_, ?_, ?_, ?_, ?_⟩
  · intro s language maxDepth currentDepth item d hnone hd x hx
    exact loadRecipeFuel_depth_cap s language (maxDepth - currentDepth)
      item d hnone hd x hx
  · intro s language maxDepth n item h1 hn hchain hok
    have hfuel : maxDepth - 0 = maxDepth := by omega
    unfold LoadRecipeRecursive at hok ⊢
    rw [hfuel] at hok ⊢
    exact loadRecipeFuel_depth_tight s language maxDepth item n h1 hn
      hchain hok
  · decide
  · decide
  · decide

/-- C2, witness: the cap and tightness parts applied to `chainStore` at the
deployed parameters (maxDepth 3, currentDepth 0, chain length 4 ≥ 3). -/
theorem C2_depth_cap_witness :
    ((findListItemBase chainStore 0 "en").recipe = none ∧
     HasRecipeChain chainStore (findListItemBase chainStore 0 "en").id 4 ∧
     (LoadRecipeRecursive chainStore "en" 3 0
        (findListItemBase chainStore 0 "en")).2 = none) ∧
    (∀ x ∈ itemsAtDepth (LoadRecipeRecursive chainStore "en" 3 0
        (findListItemBase chainStore 0 "en")).1 3, x.recipe = none) ∧
    (∃ x ∈ itemsAtDepth (LoadRecipeRecursive chainStore "en" 3 0
        (findListItemBase chainStore 0 "en")).1 2, x.recipe.isSome = true) := by
  have hchain : HasRecipeChain chainStore 0 4 :=
    @HasRecipeChain.succ chainStore 0 3
      { id := 100, itemID := 0 }
      [{ recipeID := 100, itemID := 1, quantity := 1 }]
      { recipeID := 100, itemID := 1, quantity := 1 } rfl (by simp)
      (@HasRecipeChain.succ chainStore 1 2
        { id := 101, itemID := 1 }
        [{ recipeID := 101, itemID := 2, quantity := 1 }]
        { recipeID := 101, itemID := 2, quantity := 1 } rfl (by simp)
        (@HasRecipeChain.succ chainStore 2 1
          { id := 102, itemID := 2 }
          [{ recipeID := 102, itemID := 3, quantity := 1 }]
          { recipeID := 102, itemID := 3, quantity := 1 } rfl (by simp)
          (@HasRecipeChain.succ chainStore 3 0
            { id := 103, itemID := 3 }
            [{ recipeID := 103, itemID := 4, quantity := 1 }]
            { recipeID := 103, itemID := 4, quantity := 1 } rfl (by simp)
            (HasRecipeChain.zero 4))))
  refine ⟨⟨by rfl, hchain, by decide⟩, ?_, ?_⟩
  · exact C2_depth_cap.1 chainStore "en" 3 0
      (findListItemBase chainStore 0 "en") 3 (by rfl) (by decide)
  · exact C2_depth_cap.2.1 chainStore "en" 3 4
      (findListItemBase chainStore 0 "en") (by decide) (by decide) hchain
      (by decide)

/-! ## Claims C3-C5 — characterization of the aggregation totals

`specIngredientsContribution`/`specRecipeContribution` are the spec side of
the refinement: the spec defines `total_needed` as "the sum of all quantities
demanded across every occurrence in every tree, each occurrence scaled by the
cumulative multiplier along its path", with a craftable ingredient both
recorded itself and recursed into with multiplier `needed` (spec 3, 4.2).
The characterization theorems prove the source's accumulator-passing
aggregation computes exactly this quantity. -/

mutual
def specRecipeContribution : Option RecipeModel → Int → Nat → Int
  | none, _, _ => 0
  | some r, multiplier, x =>
      specIngredientsContribution r.ingredients multiplier x
termination_by r _ _ => sizeOf r
decreasing_by
  have h := RecipeOf.sizeOf_ingredients_lt r
  simp
  omega

def specIngredientsContribution : List IngredientModel → Int → Nat → Int
  | [], _, _ => 0
  | ing :: rest, multiplier, x =>
      (if ing.itemID = x then ing.quantity * multiplier else 0) +
      specRecipeContribution ing.item.recipe (ing.quantity * multiplier) x +
      specIngredientsContribution rest multiplier x
termination_by l _ _ => sizeOf l
decreasing_by
  · have h1 := ItemModel.sizeOf_recipe_lt ing.item
    have h2 := IngredientOf.sizeOf_item_lt ing
    simp
    omega
  · simp
end

def totalNeededOf (resources : ResourceMap) (x : Nat) : Int :=
  match resources.find? (fun r => r.itemID == x) with
  | some r => r.totalNeeded
  | none => 0

theorem mkResourceRequirement_itemID (ing : IngredientModel) (needed : Int) :
    (mkResourceRequirement ing needed).itemID = ing.itemID := rfl

theorem totalNeededOf_cons (a : ResourceRequirement) (rest : ResourceMap) (x : Nat) :
    totalNeededOf (a :: rest) x =
      if a.itemID = x then a.totalNeeded else totalNeededOf rest x := by
  by_cases h : a.itemID = x <;>
    simp [totalNeededOf, List.find?_cons, h]

theorem totalNeededOf_update_hit (resources : ResourceMap) (k : Nat)
    (needed : Int) (hmem : ∃ r ∈ resources, r.itemID = k) :
    totalNeededOf (resources.map (fun r =>
        if r.itemID = k then { r with totalNeeded := r.totalNeeded + needed }
        else r)) k =
      totalNeededOf resources k + needed := by
  induction resources with
  | nil => simp at hmem
  | cons a rest ih =>
      by_cases hak : a.itemID = k
      · simp [List.map_cons, totalNeededOf_cons, hak]
      · rcases hmem with ⟨r, hr, hrk⟩
        rcases List.mem_cons.mp hr with rfl | hmemr
        · exact absurd hrk hak
        · simp only [List.map_cons, if_neg hak, totalNeededOf_cons, hak,
            if_false]
          exact ih ⟨r, hmemr, hrk⟩

theorem totalNeededOf_update_miss (resources : ResourceMap) (k x : Nat)
    (needed : Int) (hkx : ¬ k = x) :
    totalNeededOf (resources.map (fun r =>
        if r.itemID = k then { r with totalNeeded := r.totalNeeded + needed }
        else r)) x =
      totalNeededOf resources x := by
  induction resources with
  | nil => rfl
  | cons a rest ih =>
      by_cases hak : a.itemID = k
      · have hax : ¬ a.itemID = x := by rw [hak]; exact hkx
        simp only [List.map_cons, if_pos hak, totalNeededOf_cons]
        rw [if_neg hax, if_neg hax, ih]
      · simp only [List.map_cons, if_neg hak, totalNeededOf_cons]
        by_cases hax : a.itemID = x
        · rw [if_pos hax, if_pos hax]
        · rw [if_neg hax, if_neg hax, ih]

theorem totalNeededOf_append_new (resources : ResourceMap)
    (new : ResourceRequirement) (x : Nat)
    (hnone : resources.find? (fun r => r.itemID == x) = none) :
    totalNeededOf (resources ++ [new]) x =
      if new.itemID = x then new.totalNeeded else 0 := by
  by_cases h : new.itemID = x <;>
    simp [totalNeededOf, List.find?_append, hnone, h]

theorem totalNeededOf_append_old (resources : ResourceMap)
    (new : ResourceRequirement) (x : Nat)
    (hnx : ¬ new.itemID = x) :
    totalNeededOf (resources ++ [new]) x = totalNeededOf resources x := by
  unfold totalNeededOf
  rw [List.find?_append]
  cases hf : resources.find? (fun r => r.itemID == x) with
  | some r => simp
  | none => simp [hf, hnx]

theorem totalNeededOf_recordIngredient (resources : ResourceMap)
    (ing : IngredientModel) (needed : Int) (x : Nat) :
    totalNeededOf (recordIngredient resources ing needed) x =
      totalNeededOf resources x + (if ing.itemID = x then needed else 0) := by
  unfold recordIngredient
  by_cases hmem : resources.any (fun r => r.itemID == ing.itemID) = true
  · rw [if_pos hmem]
    have hmem' : ∃ r ∈ resources, r.itemID = ing.itemID := by
      rcases List.any_eq_true.mp hmem with ⟨r, hr, hrk⟩
      exact ⟨r, hr, by simpa using hrk⟩
    simp only [beq_iff_eq]
    by_cases hx : ing.itemID = x
    · subst hx
      rw [totalNeededOf_update_hit resources ing.itemID needed hmem']
      simp
    · rw [totalNeededOf_update_miss resources ing.itemID x needed hx]
      simp [hx]
  · rw [if_neg hmem]
    have hnonek : resources.find? (fun r => r.itemID == ing.itemID) = none := by
      rw [List.find?_eq_none]
      intro r hr
      simp only [beq_iff_eq]
      intro hrk
      exact hmem (List.any_eq_true.mpr ⟨r, hr, by simp [hrk]⟩)
    by_cases hx : ing.itemID = x
    · subst hx
      rw [totalNeededOf_append_new resources _ _ hnonek]
      have h0 : totalNeededOf resources ing.itemID = 0 := by
        unfold totalNeededOf
        rw [hnonek]
      rw [h0]
      simp [mkResourceRequirement_itemID]
      rfl
    · rw [totalNeededOf_append_old]
      · simp [hx]
      · rw [mkResourceRequirement_itemID]; exact hx


/-- The aggregate's running total for each item id: folding one ingredient
list adds exactly the tree's path contribution (the spec's characterization
of `total_needed`). -/
theorem totalNeededOf_aggregateIngredients (x : Nat) :
    ∀ (l : List IngredientModel) (m : Int) (acc : ResourceMap),
      totalNeededOf (aggregateIngredients l m acc) x =
        totalNeededOf acc x + specIngredientsContribution l m x := by
  refine aggregateIngredients.induct
    (fun o m acc => totalNeededOf (aggregateRecipeResources o m acc) x =
      totalNeededOf acc x + specRecipeContribution o m x)
    (fun l m acc => totalNeededOf (aggregateIngredients l m acc) x =
      totalNeededOf acc x + specIngredientsContribution l m x)
    ?_ ?_ ?_ ?_
  · intro m acc
    simp [aggregateRecipeResources, specRecipeContribution]
  · intro recipe m acc ih
    rw [aggregateRecipeResources, specRecipeContribution, ih]
  · intro m acc
    simp [aggregateIngredients, specIngredientsContribution]
  · intro ing rest m acc hneed ih1a ih1b ih2
    simp only [aggregateIngredients.eq_2, specIngredientsContribution.eq_2,
      ih2, ih1b, totalNeededOf_recordIngredient]
    ring

/-- Same characterization at the recipe level (`aggregateRecipeResources`). -/
theorem totalNeededOf_aggregateRecipeResources (x : Nat)
    (o : Option RecipeModel) (m : Int) (acc : ResourceMap) :
    totalNeededOf (aggregateRecipeResources o m acc) x =
      totalNeededOf acc x + specRecipeContribution o m x := by
  cases o with
  | none => simp [aggregateRecipeResources, specRecipeContribution]
  | some r =>
      rw [aggregateRecipeResources, specRecipeContribution,
        totalNeededOf_aggregateIngredients]

/-- The key list of the resource map: the item ids of its entries. -/
def resourceKeys (resources : ResourceMap) : List Nat :=
  resources.map (fun r => r.itemID)

theorem resourceKeys_recordIngredient (resources : ResourceMap)
    (ing : IngredientModel) (needed : Int) :
    resourceKeys (recordIngredient resources ing needed) =
      if resources.any (fun r => r.itemID == ing.itemID) then
        resourceKeys resources
      else resourceKeys resources ++ [ing.itemID] := by
  unfold recordIngredient resourceKeys
  by_cases h : resources.any (fun r => r.itemID == ing.itemID) = true
  · rw [if_pos h, if_pos h, List.map_map]
    refine List.map_congr_left ?_
    intro r _
    by_cases hk : r.itemID = ing.itemID <;> simp [hk]
  · rw [if_neg h, if_neg h]
    simp [mkResourceRequirement_itemID]

theorem nodup_keys_recordIngredient {resources : ResourceMap}
    (ing : IngredientModel) (needed : Int)
    (h : (resourceKeys resources).Nodup) :
    (resourceKeys (recordIngredient resources ing needed)).Nodup := by
  rw [resourceKeys_recordIngredient]
  by_cases hmem : resources.any (fun r => r.itemID == ing.itemID) = true
  · rw [if_pos hmem]; exact h
  · rw [if_neg hmem]
    have hnotin : ing.itemID ∉ resourceKeys resources := by
      intro hin
      rcases List.mem_map.mp hin with ⟨r, hr, hrk⟩
      exact hmem (List.any_eq_true.mpr ⟨r, hr, by simp [hrk]⟩)
    simp [List.nodup_append, h, hnotin]

theorem nodup_keys_aggregateIngredients :
    ∀ (l : List IngredientModel) (m : Int) (acc : ResourceMap),
      (resourceKeys acc).Nodup →
      (resourceKeys (aggregateIngredients l m acc)).Nodup := by
  refine aggregateIngredients.induct
    (fun o m acc => (resourceKeys acc).Nodup →
      (resourceKeys (aggregateRecipeResources o m acc)).Nodup)
    (fun l m acc => (resourceKeys acc).Nodup →
      (resourceKeys (aggregateIngredients l m acc)).Nodup)
    ?_ ?_ ?_ ?_
  · intro m acc h
    simpa [aggregateRecipeResources] using h
  · intro recipe m acc ih h
    rw [aggregateRecipeResources]
    exact ih h
  · intro m acc h
    simpa [aggregateIngredients] using h
  · intro ing rest m acc hneed ih1a ih1b ih2 h
    rw [aggregateIngredients.eq_2]
    exact ih2 (ih1b (nodup_keys_recordIngredient ing _ h))

theorem aggregateListResources_cons_none {li : LoadedListItem}
    (rest : List LoadedListItem) (acc : ResourceMap)
    (h : li.item.recipe = none) :
    aggregateListResources (li :: rest) acc =
      aggregateListResources rest acc := by
  simp [aggregateListResources, h]

theorem aggregateListResources_cons_some {li : LoadedListItem}
    (rest : List LoadedListItem) (acc : ResourceMap) {r : RecipeModel}
    (h : li.item.recipe = some r) :
    aggregateListResources (li :: rest) acc =
      aggregateListResources rest
        (aggregateRecipeResources (some r) li.quantity acc) := by
  simp [aggregateListResources, h]

theorem nodup_keys_aggregateListResources :
    ∀ (items : List LoadedListItem) (acc : ResourceMap),
      (resourceKeys acc).Nodup →
      (resourceKeys (aggregateListResources items acc)).Nodup := by
  intro items
  induction items with
  | nil => intro acc h; simpa [aggregateListResources] using h
  | cons li rest ih =>
      intro acc h
      cases hrec : li.item.recipe with
      | none =>
          rw [aggregateListResources_cons_none rest acc hrec]
          exact ih acc h
      | some r =>
          rw [aggregateListResources_cons_some rest acc hrec]
          refine ih _ ?_
          rw [aggregateRecipeResources]
          exact nodup_keys_aggregateIngredients r.ingredients li.quantity acc h

/-- Entries whose item carries no recipe are skipped by the aggregation: the
fold over the list equals the fold over the craftable entries only. -/
theorem aggregateListResources_filter :
    ∀ (items : List LoadedListItem) (acc : ResourceMap),
      aggregateListResources items acc =
        aggregateListResources
          (items.filter (fun li => li.item.recipe.isSome)) acc := by
  intro items
  induction items with
  | nil => intro acc; rfl
  | cons li rest ih =>
      intro acc
      cases hrec : li.item.recipe with
      | none =>
          rw [aggregateListResources_cons_none rest acc hrec]
          simp only [List.filter_cons, hrec, Option.isSome_none,
            Bool.false_eq_true, if_false]
          exact ih acc
      | some r =>
          rw [aggregateListResources_cons_some rest acc hrec]
          simp only [List.filter_cons, hrec, Option.isSome_some, if_true]
          rw [aggregateListResources_cons_some _ acc hrec]
          exact ih _

/-- Parametric store for C3: workshop list 1 holds craftable item 1
("Sword", quantity `Q`) whose recipe needs `K` of raw item 2 ("Iron", no
recipe), and item 2 itself as a raw list entry with quantity `M`. -/
def storeRawPlusCraft (Q K M : Int) : Store :=
  { items := [{ id := 1, ankaId := 11, typeAnkaId := 0, gfxID := 0 },
              { id := 2, ankaId := 22, typeAnkaId := 0, gfxID := 0 }]
    itemTranslations := [{ itemID := 1, language := "en", name := "Sword" },
                         { itemID := 2, language := "en", name := "Iron" }]
    itemTypes := []
    itemTypeTranslations := []
    auctionHouses := []
    auctionHouseTranslations := []
    recipes := [{ id := 10, itemID := 1 }]
    ingredients := [{ recipeID := 10, itemID := 2, quantity := K }]
    itemStats := []
    runes := []
    workshopLists := [{ id := 1, userID := 7 }]
    workshopListItems := [{ workshopListID := 1, itemID := 1, quantity := Q },
                          { workshopListID := 1, itemID := 2, quantity := M }] }

/-- C3: quantity multiplication and the raw-entry skip.  (1) For every
quantity `Q`, recipe requirement `K` and raw-entry quantity `M`, the
aggregate of `storeRawPlusCraft Q K M` holds exactly one entry — for the raw
ingredient — with total `K * Q` (` = Q * K`); the raw item's own list entry
with quantity `M` contributes nothing (the result does not mention `M`).
(2) In general, list entries whose item has no recipe are skipped: the
aggregation equals the aggregation of the craftable entries only. -/
theorem C3_quantity_multiplication :
    (∀ (Q K M : Int),
        GetAllResourcesForList (storeRawPlusCraft Q K M) 1 "en" =
          .ok [{ itemID := 2, itemAnkaID := 22, typeAnkaID := 0, gfxID := 0,
                 name := "Iron", totalNeeded := K * Q,
                 auctionHouseID := none, auctionHouseName := "",
                 auctionHouseDisplayOrder := 0 }]) ∧
    (∀ (items : List LoadedListItem) (acc : ResourceMap),
        aggregateListResources items acc =
          aggregateListResources
            (items.filter (fun li => li.item.recipe.isSome)) acc) := by
  constructor
  · intro Q K M
    simp [GetAllResourcesForList, GetWorkshopListByID, storeRawPlusCraft,
      LoadRecipeRecursive, loadRecipeFuel, findListItemBase, findRecipeRows,
      findItemWithType, itemTranslationsFor, itemTypeFor, loadIngredientsWith,
      zeroIngredient, zeroItemModel, ItemModel.withRecipe, ItemModel.id,
      ItemModel.recipe, aggregateListResources, aggregateRecipeResources,
      aggregateIngredients, recordIngredient, mkResourceRequirement,
      ItemModel.translations, ItemModel.type, ItemModel.ankaId,
      ItemModel.typeAnkaId, ItemModel.gfxID]
  · exact aggregateListResources_filter

/-- Parametric store for C4: items 1 and 2 are both craftable from the same
raw item 3; item 1's recipe needs `a` of it, item 2's needs `b`; the list
holds item 1 with quantity `qa` and item 2 with quantity `qb`. -/
def storeTwoPaths (a b qa qb : Int) : Store :=
  { items := [{ id := 1, ankaId := 0, typeAnkaId := 0, gfxID := 0 },
              { id := 2, ankaId := 0, typeAnkaId := 0, gfxID := 0 },
              { id := 3, ankaId := 0, typeAnkaId := 0, gfxID := 0 }]
    itemTranslations := []
    itemTypes := []
    itemTypeTranslations := []
    auctionHouses := []
    auctionHouseTranslations := []
    recipes := [{ id := 10, itemID := 1 }, { id := 11, itemID := 2 }]
    ingredients := [{ recipeID := 10, itemID := 3, quantity := a },
                    { recipeID := 11, itemID := 3, quantity := b }]
    itemStats := []
    runes := []
    workshopLists := [{ id := 1, userID := 7 }]
    workshopListItems := [{ workshopListID := 1, itemID := 1, quantity := qa },
                          { workshopListID := 1, itemID := 2, quantity := qb }] }

/-- C4: accumulation across paths.  (1) Every aggregate returned by
`GetAllResourcesForList` holds at most one entry per item id.  (2) When two
list entries' trees both demand raw item 3 (`a` per unit of entry one, `b`
per unit of entry two), the single entry for item 3 totals
`a * qa + b * qb` — the sum of both paths' contributions (with `a = 3`,
`b = 5`, `qa = qb = 1` this is the claim's 3 + 5 = 8). -/
theorem C4_accumulation :
    (∀ (s : Store) (listID : Nat) (language : String)
        (rs : List ResourceRequirement),
        GetAllResourcesForList s listID language = .ok rs →
        (rs.map (fun r => r.itemID)).Nodup) ∧
    (∀ (a b qa qb : Int),
        GetAllResourcesForList (storeTwoPaths a b qa qb) 1 "en" =
          .ok [{ itemID := 3, itemAnkaID := 0, typeAnkaID := 0, gfxID := 0,
                 name := "", totalNeeded := a * qa + b * qb,
                 auctionHouseID := none, auctionHouseName := "",
                 auctionHouseDisplayOrder := 0 }]) := by
  constructor
  · intro s listID language rs h
    unfold GetAllResourcesForList at h
    cases hw : GetWorkshopListByID s listID language with
    | error e => rw [hw] at h; cases h
    | ok list =>
        rw [hw] at h
        cases h
        exact nodup_keys_aggregateListResources list.items []
          (by simp [resourceKeys])
  · intro a b qa qb
    simp [GetAllResourcesForList, GetWorkshopListByID, storeTwoPaths,
      LoadRecipeRecursive, loadRecipeFuel, findListItemBase, findRecipeRows,
      findItemWithType, itemTranslationsFor, itemTypeFor, loadIngredientsWith,
      zeroIngredient, zeroItemModel, ItemModel.withRecipe, ItemModel.id,
      ItemModel.recipe, aggregateListResources, aggregateRecipeResources,
      aggregateIngredients, recordIngredient, mkResourceRequirement,
      ItemModel.translations, ItemModel.type, ItemModel.ankaId,
      ItemModel.typeAnkaId, ItemModel.gfxID]

/-- C4, witness: on `storeTwoPaths 3 5 1 1` (the claim's example) the result
is a single entry for item 3 whose ids are duplicate-free. -/
theorem C4_accumulation_witness :
    ∃ rs, GetAllResourcesForList (storeTwoPaths 3 5 1 1) 1 "en" = .ok rs ∧
      (rs.map (fun r => r.itemID)).Nodup :=
  ⟨_, C4_accumulation.2 3 5 1 1,
   C4_accumulation.1 (storeTwoPaths 3 5 1 1) 1 "en" _
     (C4_accumulation.2 3 5 1 1)⟩

/-- Parametric store for C5: list 1 holds item 1 with quantity `q`; item 1's
recipe needs `a` of item 2, which is itself craftable from `c` of raw
item 3. -/
def storeIntermediate (a c q : Int) : Store :=
  { items := [{ id := 1, ankaId := 0, typeAnkaId := 0, gfxID := 0 },
              { id := 2, ankaId := 0, typeAnkaId := 0, gfxID := 0 },
              { id := 3, ankaId := 0, typeAnkaId := 0, gfxID := 0 }]
    itemTranslations := []
    itemTypes := []
    itemTypeTranslations := []
    auctionHouses := []
    auctionHouseTranslations := []
    recipes := [{ id := 10, itemID := 1 }, { id := 11, itemID := 2 }]
    ingredients := [{ recipeID := 10, itemID := 2, quantity := a },
                    { recipeID := 11, itemID := 3, quantity := c }]
    itemStats := []
    runes := []
    workshopLists := [{ id := 1, userID := 7 }]
    workshopListItems := [{ workshopListID := 1, itemID := 1, quantity := q }] }

/-- C5: deliberate double accounting for craftable intermediates.  (1) In
general, aggregating one ingredient whose item carries a recipe both records
the ingredient itself at `needed = quantity * multiplier` and adds its
sub-recipe's full contribution taken at multiplier `needed`.  (2) Through the
pipeline on `storeIntermediate a c q`: the craftable intermediate (item 2)
appears as its own entry with total `a * q`, AND its raw ingredient (item 3)
is accumulated at `c * (a * q)`. -/
theorem C5_double_accounting :
    (∀ (ing : IngredientModel) (m : Int) (acc : ResourceMap) (x : Nat)
        (r' : RecipeModel), ing.item.recipe = some r' →
        totalNeededOf (aggregateIngredients [ing] m acc) x =
          totalNeededOf acc x +
            (if ing.itemID = x then ing.quantity * m else 0) +
            specIngredientsContribution r'.ingredients (ing.quantity * m) x) ∧
    (∀ (a c q : Int),
        GetAllResourcesForList (storeIntermediate a c q) 1 "en" =
          .ok [{ itemID := 2, itemAnkaID := 0, typeAnkaID := 0, gfxID := 0,
                 name := "", totalNeeded := a * q,
                 auctionHouseID := none, auctionHouseName := "",
                 auctionHouseDisplayOrder := 0 },
               { itemID := 3, itemAnkaID := 0, typeAnkaID := 0, gfxID := 0,
                 name := "", totalNeeded := c * (a * q),
                 auctionHouseID := none, auctionHouseName := "",
                 auctionHouseDisplayOrder := 0 }]) := by
  constructor
  · intro ing m acc x r' hr
    rw [totalNeededOf_aggregateIngredients, specIngredientsContribution.eq_2,
      specIngredientsContribution.eq_1, specRecipeContribution.eq_def]
    rw [hr]
    ring
  · intro a c q
    simp [GetAllResourcesForList, GetWorkshopListByID, storeIntermediate,
      LoadRecipeRecursive, loadRecipeFuel, findListItemBase, findRecipeRows,
      findItemWithType, itemTranslationsFor, itemTypeFor, loadIngredientsWith,
      zeroIngredient, zeroItemModel, ItemModel.withRecipe, ItemModel.id,
      ItemModel.recipe, aggregateListResources, aggregateRecipeResources,
      aggregateIngredients, recordIngredient, mkResourceRequirement,
      ItemModel.translations, ItemModel.type, ItemModel.ankaId,
      ItemModel.typeAnkaId, ItemModel.gfxID]

/-- C5, witness for the general part: one concrete ingredient (3 units of
item 2, itself craftable from 4 of item 3) aggregated at multiplier 5. -/
theorem C5_double_accounting_witness :
    ((ItemModel.mk 2 0 0 0 [] none []
        (some { itemID := 2,
                ingredients := [{ itemID := 3, quantity := 4,
                                  item := zeroItemModel }] })).recipe =
      some { itemID := 2,
             ingredients := [{ itemID := 3, quantity := 4,
                               item := zeroItemModel }] }) ∧
    totalNeededOf
        (aggregateIngredients
          [{ itemID := 2, quantity := 3,
             item := ItemModel.mk 2 0 0 0 [] none []
               (some { itemID := 2,
                       ingredients := [{ itemID := 3, quantity := 4,
                                         item := zeroItemModel }] }) }] 5 [])
        3 =
      totalNeededOf ([] : ResourceMap) 3 + (if (2 : Nat) = 3 then 3 * 5 else 0) +
        specIngredientsContribution
          [{ itemID := 3, quantity := 4, item := zeroItemModel }] (3 * 5) 3 :=
  ⟨rfl,
   C5_double_accounting.1
     { itemID := 2, quantity := 3,
       item := ItemModel.mk 2 0 0 0 [] none []
         (some { itemID := 2,
                 ingredients := [{ itemID := 3, quantity := 4,
                                   item := zeroItemModel }] }) } 5 [] 3
     { itemID := 2,
       ingredients := [{ itemID := 3, quantity := 4,
                         item := zeroItemModel }] } rfl⟩

/-! ## Grouping lemmas for C6 -/

theorem appendToGroup_keys (g : List (String × List ResourceRequirement))
    (key : String) (res : ResourceRequirement) :
    (appendToGroup g key res).map Prod.fst =
      if g.any (fun kv => kv.1 == key) then g.map Prod.fst
      else g.map Prod.fst ++ [key] := by
  unfold appendToGroup
  by_cases h : g.any (fun kv => kv.1 == key) = true
  · rw [if_pos h, if_pos h, List.map_map]
    refine List.map_congr_left ?_
    intro kv _
    by_cases hk : kv.1 = key <;> simp [hk]
  · rw [if_neg h, if_neg h]
    simp

theorem appendToGroup_buckets_ne_nil
    (g : List (String × List ResourceRequirement)) (key : String)
    (res : ResourceRequirement)
    (h : ∀ kv ∈ g, kv.2 ≠ []) :
    ∀ kv ∈ appendToGroup g key res, kv.2 ≠ [] := by
  unfold appendToGroup
  by_cases hmem : g.any (fun kv => kv.1 == key) = true
  · rw [if_pos hmem]
    intro kv hkv
    rcases List.mem_map.mp hkv with ⟨kv0, hkv0, rfl⟩
    by_cases hk : kv0.1 = key <;> simp [hk]
    exact h kv0 hkv0
  · rw [if_neg hmem]
    intro kv hkv
    rcases List.mem_append.mp hkv with hkv | hkv
    · exact h kv hkv
    · simp at hkv
      rw [hkv]
      simp

theorem groupedByName_keys_mem (resources : List ResourceRequirement) :
    ∀ (g0 : List (String × List ResourceRequirement)) (k : String),
      (k ∈ (resources.foldl
          (fun g res => appendToGroup g res.auctionHouseName res) g0).map
            Prod.fst) ↔
        (k ∈ g0.map Prod.fst ∨ ∃ r ∈ resources, r.auctionHouseName = k) := by
  induction resources with
  | nil => intro g0 k; simp [List.foldl_nil]
  | cons res rest ih =>
      intro g0 k
      rw [List.foldl_cons, ih]
      constructor
      · rintro (hk | hk)
        · rw [appendToGroup_keys] at hk
          by_cases h : g0.any (fun kv => kv.1 == res.auctionHouseName) = true
          · rw [if_pos h] at hk; exact Or.inl hk
          · rw [if_neg h] at hk
            rcases List.mem_append.mp hk with hk | hk
            · exact Or.inl hk
            · simp at hk
              exact Or.inr ⟨res, by simp, hk.symm⟩
        · rcases hk with ⟨r, hr, hrk⟩
          exact Or.inr ⟨r, by simp [hr], hrk⟩
      · rintro (hk | ⟨r, hr, hrk⟩)
        · left
          rw [appendToGroup_keys]
          by_cases h : g0.any (fun kv => kv.1 == res.auctionHouseName) = true
          · rw [if_pos h]; exact hk
          · rw [if_neg h]; exact List.mem_append.mpr (Or.inl hk)
        · rcases List.mem_cons.mp hr with rfl | hr
          · left
            rw [appendToGroup_keys]
            by_cases h : g0.any (fun kv => kv.1 == r.auctionHouseName) = true
            · rw [if_pos h]
              rcases List.any_eq_true.mp h with ⟨kv, hkv, hkvk⟩
              rw [← hrk]
              rw [← (by simpa using hkvk : kv.1 = r.auctionHouseName)]
              exact List.mem_map.mpr ⟨kv, hkv, rfl⟩
            · rw [if_neg h]
              exact List.mem_append.mpr (Or.inr (by simp [hrk]))
          · exact Or.inr ⟨r, hr, hrk⟩

theorem groupedByName_buckets_ne_nil (resources : List ResourceRequirement) :
    ∀ kv ∈ groupedByName resources, kv.2 ≠ [] := by
  unfold groupedByName
  suffices h : ∀ (g0 : List (String × List ResourceRequirement)),
      (∀ kv ∈ g0, kv.2 ≠ []) →
      ∀ kv ∈ resources.foldl
          (fun g res => appendToGroup g res.auctionHouseName res) g0,
        kv.2 ≠ [] by
    exact h [] (by simp)
  induction resources with
  | nil => intro g0 h0; simpa using h0
  | cons res rest ih =>
      intro g0 h0
      rw [List.foldl_cons]
      exact ih _ (appendToGroup_buckets_ne_nil g0 _ res h0)

theorem groupOf_length_pos (g : List (String × List ResourceRequirement))
    (k : String) (hne : ∀ kv ∈ g, kv.2 ≠ []) :
    0 < (groupOf g k).length ↔ k ∈ g.map Prod.fst := by
  unfold groupOf
  cases hf : g.find? (fun kv => kv.1 == k) with
  | none =>
      simp only [List.length_nil]
      constructor
      · intro h; omega
      · intro h
        rcases List.mem_map.mp h with ⟨kv, hkv, rfl⟩
        have := List.find?_eq_none.mp hf kv hkv
        simp at this
  | some kv =>
      have hkvg : kv ∈ g := List.mem_of_find?_eq_some hf
      have hkvk : kv.1 = k := by simpa using List.find?_some hf
      constructor
      · intro _
        exact hkvk ▸ List.mem_map.mpr ⟨kv, hkvg, rfl⟩
      · intro _
        have := hne kv hkvg
        cases hl : kv.2 with
        | nil => exact absurd hl this
        | cons a l => simp [hl]

/-- Store for C6's concrete part: one craftable list item whose recipe pulls
"Bronze Ore" (marketplace "Ore Market", display order 2), "Amber Dust"
(marketplace "Dust Market", display order 1) and "Moss" (no marketplace). -/
def storeMarkets : Store :=
  { items := [{ id := 1, ankaId := 0, typeAnkaId := 0, gfxID := 0 },
              { id := 2, ankaId := 0, typeAnkaId := 101, gfxID := 0 },
              { id := 3, ankaId := 0, typeAnkaId := 102, gfxID := 0 },
              { id := 4, ankaId := 0, typeAnkaId := 0, gfxID := 0 }]
    itemTranslations := [{ itemID := 2, language := "en", name := "Bronze Ore" },
                         { itemID := 3, language := "en", name := "Amber Dust" },
                         { itemID := 4, language := "en", name := "Moss" }]
    itemTypes := [{ id := 11, ankaId := 101, auctionHouseID := some 201 },
                  { id := 12, ankaId := 102, auctionHouseID := some 202 }]
    itemTypeTranslations := []
    auctionHouses := [{ id := 201, code := "ores", displayOrder := 2 },
                      { id := 202, code := "dust", displayOrder := 1 }]
    auctionHouseTranslations :=
      [{ auctionHouseID := 201, language := "en", name := "Ore Market" },
       { auctionHouseID := 202, language := "en", name := "Dust Market" }]
    recipes := [{ id := 10, itemID := 1 }]
    ingredients := [{ recipeID := 10, itemID := 2, quantity := 1 },
                    { recipeID := 10, itemID := 3, quantity := 2 },
                    { recipeID := 10, itemID := 4, quantity := 3 }]
    itemStats := []
    runes := []
    workshopLists := [{ id := 1, userID := 7 }]
    workshopListItems := [{ workshopListID := 1, itemID := 1, quantity := 1 }] }

/-- C6: marketplace bucket ordering.  (1) The grouping/ordering core does
behave as claimed for every resource collection: only the last order entry
may be the empty (no-marketplace) label, the named buckets ascend by their
recorded display order, and a label appears exactly when some resource
carries it (so the empty label is omitted entirely when its bucket has no
members).  (2) BUT the program never feeds it a named resource: no query in
the pipeline preloads `Type.AuctionHouse`, so on the claim's own scenario —
marketplaces with display orders 2 and 1 plus one uncategorised resource
(`storeMarkets`) — `GetResourcesGroupedByAuctionHouse` returns a single
empty-label bucket and the order `[""]`, not
[order-1 market, order-2 market, ""]: the code contradicts its own doc
comment ("The key is the auction house name (empty string for items without
an auction house) ... Auction houses are sorted by their display order"). -/
theorem C6_marketplace_order :
    (∀ (resources : List ResourceRequirement)
        (groups : List (String × List ResourceRequirement))
        (order : List String),
        groupResourcesByAuctionHouse resources = (groups, order) →
        (order.Pairwise (fun a _ => a ≠ "")) ∧
        ((order.filter (fun k => k ≠ "")).Pairwise (fun a b =>
            displayOrderOf (displayOrderMap resources) a ≤
              displayOrderOf (displayOrderMap resources) b)) ∧
        (∀ k, k ∈ order ↔ ∃ r ∈ resources, r.auctionHouseName = k)) ∧
    (GetResourcesGroupedByAuctionHouse storeMarkets 1 "en" =
      .ok ([("", [{ itemID := 3, itemAnkaID := 0, typeAnkaID := 102,
                    gfxID := 0, name := "Amber Dust", totalNeeded := 2,
                    auctionHouseID := none, auctionHouseName := "",
                    auctionHouseDisplayOrder := 0 },
                  { itemID := 2, itemAnkaID := 0, typeAnkaID := 101,
                    gfxID := 0, name := "Bronze Ore", totalNeeded := 1,
                    auctionHouseID := none, auctionHouseName := "",
                    auctionHouseDisplayOrder := 0 },
                  { itemID := 4, itemAnkaID := 0, typeAnkaID := 0,
                    gfxID := 0, name := "Moss", totalNeeded := 3,
                    auctionHouseID := none, auctionHouseName := "",
                    auctionHouseDisplayOrder := 0 }])],
           [""])) := by
  constructor
  · intro resources groups order h
    unfold groupResourcesByAuctionHouse at h
    cases h
    set m := displayOrderMap resources with hm
    set keys := (groupedByName resources).map Prod.fst with hkeys
    set sortNamed := List.insertionSort
      (fun a b => displayOrderOf m a ≤ displayOrderOf m b)
      (keys.filter (fun k => k ≠ "")) with hsortNamed
    haveI htot : IsTotal String
        (fun a b => displayOrderOf m a ≤ displayOrderOf m b) :=
      ⟨fun a b => le_total _ _⟩
    haveI htrans : IsTrans String
        (fun a b => displayOrderOf m a ≤ displayOrderOf m b) :=
      ⟨fun a b c hab hbc => le_trans hab hbc⟩
    have hperm : ∀ k, k ∈ sortNamed ↔ k ∈ keys.filter (fun k => k ≠ "") :=
      fun k => (List.perm_insertionSort _ _).mem_iff
    have hne : ∀ k ∈ sortNamed, k ≠ "" := by
      intro k hk
      have := List.of_mem_filter ((hperm k).mp hk)
      simpa using this
    have hsorted : sortNamed.Pairwise (fun a b =>
        displayOrderOf m a ≤ displayOrderOf m b) :=
      List.sorted_insertionSort _ _
    have hfiltered : sortNamed.filter (fun k => k ≠ "") = sortNamed :=
      List.filter_eq_self.mpr (fun a ha => by simpa using hne a ha)
    have hmemkeys : ∀ k, k ∈ keys ↔ ∃ r ∈ resources, r.auctionHouseName = k := by
      intro k
      rw [hkeys]
      have := groupedByName_keys_mem resources [] k
      unfold groupedByName
      simpa using this
    have hempty : 0 < (groupOf (groupedByName resources) "").length ↔
        ∃ r ∈ resources, r.auctionHouseName = "" := by
      rw [groupOf_length_pos _ _ (groupedByName_buckets_ne_nil resources)]
      exact hmemkeys ""
    by_cases hcase : 0 < (groupOf (groupedByName resources) "").length
    · refine ⟨?_, ?_, ?_⟩
      · rw [if_pos hcase]
        rw [List.pairwise_append]
        refine ⟨List.pairwise_of_forall_mem_list
            (fun a ha _ _ => hne a ha), by simp, ?_⟩
        intro a ha b hb
        exact hne a ha
      · rw [if_pos hcase, List.filter_append]
        simp only [hfiltered]
        simpa using hsorted
      · intro k
        rw [if_pos hcase, List.mem_append]
        constructor
        · rintro (hk | hk)
          · exact (hmemkeys k).mp (List.mem_of_mem_filter ((hperm k).mp hk))
          · simp at hk
            rw [hk]
            exact hempty.mp hcase
        · intro hk
          by_cases hkne : k = ""
          · right; simp [hkne]
          · left
            refine (hperm k).mpr (List.mem_filter.mpr ⟨(hmemkeys k).mpr hk, ?_⟩)
            simpa using hkne
    · refine ⟨?_, ?_, ?_⟩
      · rw [if_neg hcase]
        exact List.pairwise_of_forall_mem_list (fun a ha _ _ => hne a ha)
      · rw [if_neg hcase, hfiltered]
        exact hsorted
      · intro k
        rw [if_neg hcase]
        constructor
        · intro hk
          exact (hmemkeys k).mp (List.mem_of_mem_filter ((hperm k).mp hk))
        · intro hk
          by_cases hkne : k = ""
          · exact absurd (hempty.mpr (hkne ▸ hk)) hcase
          · refine (hperm k).mpr (List.mem_filter.mpr ⟨(hmemkeys k).mpr hk, ?_⟩)
            simpa using hkne
  · have hres : GetAllResourcesForList storeMarkets 1 "en" =
        .ok [{ itemID := 2, itemAnkaID := 0, typeAnkaID := 101, gfxID := 0,
               name := "Bronze Ore", totalNeeded := 1,
               auctionHouseID := none, auctionHouseName := "",
               auctionHouseDisplayOrder := 0 },
             { itemID := 3, itemAnkaID := 0, typeAnkaID := 102, gfxID := 0,
               name := "Amber Dust", totalNeeded := 2,
               auctionHouseID := none, auctionHouseName := "",
               auctionHouseDisplayOrder := 0 },
             { itemID := 4, itemAnkaID := 0, typeAnkaID := 0, gfxID := 0,
               name := "Moss", totalNeeded := 3,
               auctionHouseID := none, auctionHouseName := "",
               auctionHouseDisplayOrder := 0 }] := by
      simp [GetAllResourcesForList, GetWorkshopListByID, storeMarkets,
        LoadRecipeRecursive, loadRecipeFuel, findListItemBase, findRecipeRows,
        findItemWithType, itemTranslationsFor, itemTypeFor,
        loadIngredientsWith, zeroIngredient, zeroItemModel,
        ItemModel.withRecipe, ItemModel.id, ItemModel.recipe,
        aggregateListResources, aggregateRecipeResources,
        aggregateIngredients, recordIngredient, mkResourceRequirement,
        ItemModel.translations, ItemModel.type, ItemModel.ankaId,
        ItemModel.typeAnkaId, ItemModel.gfxID]
    unfold GetResourcesGroupedByAuctionHouse
    rw [hres]
    simp [groupResourcesByAuctionHouse, groupedByName, appendToGroup,
      groupOf, displayOrderMap, displayOrderOf, List.insertionSort,
      List.orderedInsert]
    decide

/-- Concrete resource collection used by the C6 witness: one resource with a
marketplace and one without. -/
def marketWitnessResources : List ResourceRequirement :=
  [{ itemID := 2, itemAnkaID := 0, typeAnkaID := 101, gfxID := 0,
     name := "Bronze Ore", totalNeeded := 1,
     auctionHouseID := some 201, auctionHouseName := "Ore Market",
     auctionHouseDisplayOrder := 2 },
   { itemID := 4, itemAnkaID := 0, typeAnkaID := 0, gfxID := 0,
     name := "Moss", totalNeeded := 3,
     auctionHouseID := none, auctionHouseName := "",
     auctionHouseDisplayOrder := 0 }]

/-- C6, witness: the general bucket-order properties instantiated on the
concrete resource collection `marketWitnessResources`. -/
theorem C6_marketplace_order_witness :
    ∃ groups order,
      groupResourcesByAuctionHouse marketWitnessResources = (groups, order) ∧
      (order.Pairwise (fun a _ => a ≠ "") ∧
       (order.filter (fun k => k ≠ "")).Pairwise (fun a b =>
          displayOrderOf (displayOrderMap marketWitnessResources) a ≤
            displayOrderOf (displayOrderMap marketWitnessResources) b) ∧
       (∀ k, k ∈ order ↔
         ∃ r ∈ marketWitnessResources, r.auctionHouseName = k)) :=
  ⟨_, _, rfl, C6_marketplace_order.1 marketWitnessResources _ _ rfl⟩

/-! ## Claim C7 — alphabetical sort within buckets, tie behaviour

The within-bucket sort is `sort.Slice(grouped[key], Name <)`
(workshop_database.go 272-277).  `sort.Slice` is not stable, and the bucket's
input order comes from iterating a Go map (`resourceMap` in
`GetAllResourcesForList`), whose order is unspecified; so the code does not
guarantee that equal names keep their insertion order, nor a deterministic
tie order across calls. -/

/-- Two distinct resources sharing the display name "Amber Dust". -/
def tiedResourceA : ResourceRequirement :=
  { itemID := 21, itemAnkaID := 0, typeAnkaID := 0, gfxID := 0,
    name := "Amber Dust", totalNeeded := 1,
    auctionHouseID := none, auctionHouseName := "",
    auctionHouseDisplayOrder := 0 }

/-- Second resource with the same display name but a different item id. -/
def tiedResourceB : ResourceRequirement :=
  { itemID := 22, itemAnkaID := 0, typeAnkaID := 0, gfxID := 0,
    name := "Amber Dust", totalNeeded := 2,
    auctionHouseID := none, auctionHouseName := "",
    auctionHouseDisplayOrder := 0 }

/-- C7, counterexample.  On a bucket holding two distinct resources with
equal display names, BOTH orders satisfy the contract of the source's sort
(`sort.Slice` on `Name <`: a permutation with no out-of-order pair), and the
two orders differ.  The sort therefore does not break ties by original
insertion order, and the output order is not determined — contradicting the
claimed stable, deterministic tie behaviour. -/
theorem C7_counterexample :
    IsSortSliceResult (fun a b => decide (a.name < b.name))
      [tiedResourceA, tiedResourceB] [tiedResourceA, tiedResourceB] ∧
    IsSortSliceResult (fun a b => decide (a.name < b.name))
      [tiedResourceA, tiedResourceB] [tiedResourceB, tiedResourceA] ∧
    [tiedResourceA, tiedResourceB] ≠ [tiedResourceB, tiedResourceA] := by
  refine ⟨⟨List.Perm.refl _, ?_⟩, ⟨List.Perm.swap tiedResourceB tiedResourceA [], ?_⟩, ?_⟩
  · simp [tiedResourceA, tiedResourceB]
  · simp [tiedResourceA, tiedResourceB]
  · simp [tiedResourceA, tiedResourceB]

/-- C7, amended.  Within every marketplace bucket the resources are sorted
alphabetically by display name (case-sensitively, byte-wise); the relative
order of resources with EQUAL display names is unspecified (`sort.Slice` is
unstable and the bucket input order comes from Go map iteration), so
determinism holds only up to equal-name groups.  The claim's example sorts
as stated: "Bronze Ore" and "Amber Dust" in one bucket come out as
[Amber Dust, Bronze Ore] from either insertion order. -/
theorem C7_alphabetical_sort (s : Store) (listID : Nat) (language : String)
    (groups : List (String × List ResourceRequirement)) (order : List String)
    (h : GetResourcesGroupedByAuctionHouse s listID language =
      .ok (groups, order)) :
    (∀ kv ∈ groups, kv.2.Pairwise (fun a b => a.name ≤ b.name)) ∧
    (groupResourcesByAuctionHouse
        [{ itemID := 2, itemAnkaID := 0, typeAnkaID := 101, gfxID := 0,
           name := "Bronze Ore", totalNeeded := 1,
           auctionHouseID := some 201, auctionHouseName := "Ore Market",
           auctionHouseDisplayOrder := 2 },
         { itemID := 3, itemAnkaID := 0, typeAnkaID := 101, gfxID := 0,
           name := "Amber Dust", totalNeeded := 2,
           auctionHouseID := some 201, auctionHouseName := "Ore Market",
           auctionHouseDisplayOrder := 2 }]).1.map
        (fun kv => kv.2.map (fun r => r.name)) =
      [["Amber Dust", "Bronze Ore"]] ∧
    (groupResourcesByAuctionHouse
        [{ itemID := 3, itemAnkaID := 0, typeAnkaID := 101, gfxID := 0,
           name := "Amber Dust", totalNeeded := 2,
           auctionHouseID := some 201, auctionHouseName := "Ore Market",
           auctionHouseDisplayOrder := 2 },
         { itemID := 2, itemAnkaID := 0, typeAnkaID := 101, gfxID := 0,
           name := "Bronze Ore", totalNeeded := 1,
           auctionHouseID := some 201, auctionHouseName := "Ore Market",
           auctionHouseDisplayOrder := 2 }]).1.map
        (fun kv => kv.2.map (fun r => r.name)) =
      [["Amber Dust", "Bronze Ore"]] := by
  refine ⟨?_,
    by simp [groupResourcesByAuctionHouse, groupedByName, appendToGroup,
         groupOf, displayOrderMap, displayOrderOf, List.insertionSort,
         List.orderedInsert] <;> decide,
    by simp [groupResourcesByAuctionHouse, groupedByName, appendToGroup,
         groupOf, displayOrderMap, displayOrderOf, List.insertionSort,
         List.orderedInsert] <;> decide⟩
  intro kv hkv
  unfold GetResourcesGroupedByAuctionHouse at h
  cases hres : GetAllResourcesForList s listID language with
  | error e => rw [hres] at h; cases h
  | ok resources =>
      rw [hres] at h
      have h2 : groupResourcesByAuctionHouse resources = (groups, order) :=
        Except.ok.inj h
      have hg : (groupedByName resources).map (fun kv =>
          (kv.1, List.insertionSort (fun a b => a.name ≤ b.name) kv.2)) =
            groups := congrArg Prod.fst h2
      rw [← hg] at hkv
      rcases List.mem_map.mp hkv with ⟨kv0, _, rfl⟩
      haveI : IsTotal ResourceRequirement (fun a b => a.name ≤ b.name) :=
        ⟨fun a b => le_total _ _⟩
      haveI : IsTrans ResourceRequirement (fun a b => a.name ≤ b.name) :=
        ⟨fun a b c hab hbc => le_trans hab hbc⟩
      exact List.sorted_insertionSort _ _

/-- C7, witness for the amended theorem: applied to `storeMarkets`. -/
theorem C7_alphabetical_sort_witness :
    ∃ groups order,
      GetResourcesGroupedByAuctionHouse storeMarkets 1 "en" =
        .ok (groups, order) ∧
      ∀ kv ∈ groups, kv.2.Pairwise
        (fun (a b : ResourceRequirement) => a.name ≤ b.name) := by
  have hres : GetAllResourcesForList storeMarkets 1 "en" =
      .ok [{ itemID := 2, itemAnkaID := 0, typeAnkaID := 101, gfxID := 0,
             name := "Bronze Ore", totalNeeded := 1,
             auctionHouseID := none, auctionHouseName := "",
             auctionHouseDisplayOrder := 0 },
           { itemID := 3, itemAnkaID := 0, typeAnkaID := 102, gfxID := 0,
             name := "Amber Dust", totalNeeded := 2,
             auctionHouseID := none, auctionHouseName := "",
             auctionHouseDisplayOrder := 0 },
           { itemID := 4, itemAnkaID := 0, typeAnkaID := 0, gfxID := 0,
             name := "Moss", totalNeeded := 3,
             auctionHouseID := none, auctionHouseName := "",
             auctionHouseDisplayOrder := 0 }] := by
    simp [GetAllResourcesForList, GetWorkshopListByID, storeMarkets,
      LoadRecipeRecursive, loadRecipeFuel, findListItemBase, findRecipeRows,
      findItemWithType, itemTranslationsFor, itemTypeFor,
      loadIngredientsWith, zeroIngredient, zeroItemModel,
      ItemModel.withRecipe, ItemModel.id, ItemModel.recipe,
      aggregateListResources, aggregateRecipeResources,
      aggregateIngredients, recordIngredient, mkResourceRequirement,
      ItemModel.translations, ItemModel.type, ItemModel.ankaId,
      ItemModel.typeAnkaId, ItemModel.gfxID]
  have hgrp : GetResourcesGroupedByAuctionHouse storeMarkets 1 "en" =
      .ok (groupResourcesByAuctionHouse
        [{ itemID := 2, itemAnkaID := 0, typeAnkaID := 101, gfxID := 0,
           name := "Bronze Ore", totalNeeded := 1,
           auctionHouseID := none, auctionHouseName := "",
           auctionHouseDisplayOrder := 0 },
         { itemID := 3, itemAnkaID := 0, typeAnkaID := 102, gfxID := 0,
           name := "Amber Dust", totalNeeded := 2,
           auctionHouseID := none, auctionHouseName := "",
           auctionHouseDisplayOrder := 0 },
         { itemID := 4, itemAnkaID := 0, typeAnkaID := 0, gfxID := 0,
           name := "Moss", totalNeeded := 3,
           auctionHouseID := none, auctionHouseName := "",
           auctionHouseDisplayOrder := 0 }]) := by
    unfold GetResourcesGroupedByAuctionHouse
    rw [hres]
  exact ⟨_, _, hgrp,
    (C7_alphabetical_sort storeMarkets 1 "en" _ _ hgrp).1⟩

/-! ## Claim C8 — rune dedup and weight-descending sort

The rune sort is `sort.Slice(runes, Weight >)` (workshop_database.go
450-453), fed from iterating the `runeMap` Go map: like C7, the code does not
pin down the relative order of equal-weight runes across calls. -/

theorem mkRuneRequirement_runeID (language : String) (rn : RuneView) :
    (mkRuneRequirement language rn).runeID = rn.id := rfl

/-- Two distinct rune requirements sharing one weight. -/
def tiedRuneA : RuneRequirement :=
  { runeID := 1, itemAnkaID := 0, typeAnkaID := 0, gfxID := 0,
    name := "Fo", code := "fo", tier := "ba", weight := 10 }

/-- Second rune requirement with the same weight but a different rune id. -/
def tiedRuneB : RuneRequirement :=
  { runeID := 2, itemAnkaID := 0, typeAnkaID := 0, gfxID := 0,
    name := "Ine", code := "ine", tier := "ba", weight := 10 }

/-- C8, counterexample.  With two distinct equal-weight runes, BOTH orders
satisfy the contract of the source's sort (`sort.Slice` on `Weight >`), and
they differ: the code does not guarantee a stable order across repeated
calls for equal weights (the spec itself concedes the reference behaviour
defines no tiebreaker). -/
theorem C8_counterexample :
    IsSortSliceResult (fun a b => decide (b.weight < a.weight))
      [tiedRuneA, tiedRuneB] [tiedRuneA, tiedRuneB] ∧
    IsSortSliceResult (fun a b => decide (b.weight < a.weight))
      [tiedRuneA, tiedRuneB] [tiedRuneB, tiedRuneA] ∧
    [tiedRuneA, tiedRuneB] ≠ [tiedRuneB, tiedRuneA] := by
  refine ⟨⟨List.Perm.refl _, ?_⟩,
    ⟨List.Perm.swap tiedRuneB tiedRuneA [], ?_⟩, ?_⟩
  · simp [tiedRuneA, tiedRuneB]
  · simp [tiedRuneA, tiedRuneB]
  · simp [tiedRuneA, tiedRuneB]

theorem addRuneList_keys_nodup (language : String) :
    ∀ (rvs : List RuneView) (acc : List RuneRequirement),
      (acc.map (fun r => r.runeID)).Nodup →
      ((addRuneList language rvs acc).map (fun r => r.runeID)).Nodup := by
  intro rvs
  induction rvs with
  | nil => intro acc h; simpa [addRuneList] using h
  | cons rn rest ih =>
      intro acc h
      unfold addRuneList
      by_cases hmem : acc.any (fun r => r.runeID == rn.id) = true
      · rw [if_pos hmem]
        exact ih acc h
      · rw [if_neg hmem]
        refine ih _ ?_
        have hnotin : rn.id ∉ acc.map (fun r => r.runeID) := by
          intro hin
          rcases List.mem_map.mp hin with ⟨r, hr, hrk⟩
          exact hmem (List.any_eq_true.mpr ⟨r, hr, by simp [hrk]⟩)
        simp [List.nodup_append, h, hnotin, mkRuneRequirement_runeID]

theorem addStatRunes_keys_nodup (language : String) :
    ∀ (stats : List ItemStatView) (acc : List RuneRequirement),
      (acc.map (fun r => r.runeID)).Nodup →
      ((addStatRunes language stats acc).map (fun r => r.runeID)).Nodup := by
  intro stats
  induction stats with
  | nil => intro acc h; simpa [addStatRunes] using h
  | cons st rest ih =>
      intro acc h
      unfold addStatRunes
      exact ih _ (addRuneList_keys_nodup language _ acc h)

theorem collectListRunes_keys_nodup (language : String) :
    ∀ (items : List LoadedListItem) (acc : List RuneRequirement),
      (acc.map (fun r => r.runeID)).Nodup →
      ((collectListRunes language items acc).map (fun r => r.runeID)).Nodup := by
  intro items
  induction items with
  | nil => intro acc h; simpa [collectListRunes] using h
  | cons li rest ih =>
      intro acc h
      unfold collectListRunes
      exact ih _ (addStatRunes_keys_nodup language _ acc h)

/-- C8, amended.  Every result of `GetUniqueRunesForList` holds at most one
entry per rune id and is sorted by weight descending; the relative order of
EQUAL weights is unspecified (`sort.Slice` over map-iteration input), so
cross-call stability of ties is not guaranteed. -/
theorem C8_rune_dedup_sort (s : Store) (listID : Nat) (language : String)
    (rs : List RuneRequirement)
    (h : GetUniqueRunesForList s listID language = .ok rs) :
    (rs.map (fun r => r.runeID)).Nodup ∧
    rs.Pairwise (fun a b => b.weight ≤ a.weight) := by
  unfold GetUniqueRunesForList at h
  cases hw : GetWorkshopListByID s listID language with
  | error e => rw [hw] at h; cases h
  | ok list =>
      rw [hw] at h
      cases h
      constructor
      · exact List.Nodup.perm
          (collectListRunes_keys_nodup language list.items [] (by simp))
          (List.Perm.map _ (List.perm_insertionSort _ _).symm)
      · haveI : IsTotal RuneRequirement (fun a b => b.weight ≤ a.weight) :=
          ⟨fun a b => le_total _ _⟩
        haveI : IsTrans RuneRequirement (fun a b => b.weight ≤ a.weight) :=
          ⟨fun a b c hab hbc => le_trans hbc hab⟩
        exact List.sorted_insertionSort _ _

/-- Store for the C8 witness: items 1 and 2 both carry stat type 100 (whose
runes weigh 10 and 30); item 1 also carries stat type 101 (rune weight 100).
Rune 1's underlying item 50 provides the display name "Strength Rune". -/
def storeRunes : Store :=
  { items := [{ id := 1, ankaId := 0, typeAnkaId := 0, gfxID := 0 },
              { id := 2, ankaId := 0, typeAnkaId := 0, gfxID := 0 },
              { id := 50, ankaId := 0, typeAnkaId := 0, gfxID := 0 }]
    itemTranslations := [{ itemID := 50, language := "en",
                           name := "Strength Rune" }]
    itemTypes := []
    itemTypeTranslations := []
    auctionHouses := []
    auctionHouseTranslations := []
    recipes := []
    ingredients := []
    itemStats := [{ itemID := 1, statTypeID := 100 },
                  { itemID := 2, statTypeID := 100 },
                  { itemID := 1, statTypeID := 101 }]
    runes := [{ id := 1, code := "fo", statTypeID := 100, tier := "ba",
                weight := 10, itemID := some 50 },
              { id := 2, code := "pa_fo", statTypeID := 101, tier := "pa",
                weight := 100, itemID := none },
              { id := 3, code := "ra_fo", statTypeID := 100, tier := "ra",
                weight := 30, itemID := none }]
    workshopLists := [{ id := 1, userID := 7 }]
    workshopListItems := [{ workshopListID := 1, itemID := 1, quantity := 1 },
                          { workshopListID := 1, itemID := 2, quantity := 1 }] }

/-- C8, witness: on `storeRunes` — two list items sharing stat type 100, rune
weights 10/100/30 — the output has exactly one entry per rune, in weight
order [100, 30, 10]; the general theorem's dedup and sortedness apply. -/
theorem C8_rune_dedup_sort_witness :
    GetUniqueRunesForList storeRunes 1 "en" =
      .ok [{ runeID := 2, itemAnkaID := 0, typeAnkaID := 0, gfxID := 0,
             name := "pa_fo", code := "pa_fo", tier := "pa", weight := 100 },
           { runeID := 3, itemAnkaID := 0, typeAnkaID := 0, gfxID := 0,
             name := "ra_fo", code := "ra_fo", tier := "ra", weight := 30 },
           { runeID := 1, itemAnkaID := 0, typeAnkaID := 0, gfxID := 0,
             name := "Strength Rune", code := "fo", tier := "ba",
             weight := 10 }] ∧
    (([{ runeID := (2 : Int), itemAnkaID := (0 : Int), typeAnkaID := (0 : Int),
         gfxID := (0 : Int),
         name := "pa_fo", code := "pa_fo", tier := "pa",
         weight := (100 : ℚ) },
       { runeID := 3, itemAnkaID := 0, typeAnkaID := 0, gfxID := 0,
         name := "ra_fo", code := "ra_fo", tier := "ra", weight := 30 },
       { runeID := 1, itemAnkaID := 0, typeAnkaID := 0, gfxID := 0,
         name := "Strength Rune", code := "fo", tier := "ba",
         weight := 10 }] : List RuneRequirement).map
        (fun r => r.runeID)).Nodup ∧
    ([{ runeID := (2 : Int), itemAnkaID := (0 : Int), typeAnkaID := (0 : Int),
        gfxID := (0 : Int),
        name := "pa_fo", code := "pa_fo", tier := "pa",
        weight := (100 : ℚ) },
      { runeID := 3, itemAnkaID := 0, typeAnkaID := 0, gfxID := 0,
        name := "ra_fo", code := "ra_fo", tier := "ra", weight := 30 },
      { runeID := 1, itemAnkaID := 0, typeAnkaID := 0, gfxID := 0,
        name := "Strength Rune", code := "fo", tier := "ba",
        weight := 10 }] : List RuneRequirement).Pairwise
      (fun a b => b.weight ≤ a.weight) := by
  have hout : GetUniqueRunesForList storeRunes 1 "en" =
      .ok [{ runeID := 2, itemAnkaID := 0, typeAnkaID := 0, gfxID := 0,
             name := "pa_fo", code := "pa_fo", tier := "pa", weight := 100 },
           { runeID := 3, itemAnkaID := 0, typeAnkaID := 0, gfxID := 0,
             name := "ra_fo", code := "ra_fo", tier := "ra", weight := 30 },
           { runeID := 1, itemAnkaID := 0, typeAnkaID := 0, gfxID := 0,
             name := "Strength Rune", code := "fo", tier := "ba",
             weight := 10 }] := by
    simp [GetUniqueRunesForList, GetWorkshopListByID, storeRunes,
      LoadRecipeRecursive, loadRecipeFuel, findListItemBase, findRecipeRows,
      findItemWithType, itemTranslationsFor, itemTypeFor, statTypeFor,
      loadIngredientsWith, zeroIngredient, zeroItemModel,
      ItemModel.withRecipe, ItemModel.id, ItemModel.recipe, ItemModel.stats,
      collectListRunes, addStatRunes, addRuneList, mkRuneRequirement,
      List.insertionSort, List.orderedInsert]
    norm_num
  have hgen := C8_rune_dedup_sort storeRunes 1 "en" _ hout
  exact ⟨hout, hgen.1, hgen.2⟩

/-! ## Claim C9 — rune display-name resolution

Every translation collection in `GetWorkshopListByID`'s preloads is filtered
by the requested language (`"language = ?", language`), so the loaded
`rune.Item.Translations` can only hold requested-language rows: the source's
"fallback to first translation" (workshop_database.go 420-423) can never
reach a translation in another language.  An item translated only in some
other language yields the raw rune code, not that translation's name. -/

theorem loadRecipeFuel_stats (s : Store) (language : String) :
    ∀ (fuel : Nat) (it : ItemModel),
      ((loadRecipeFuel s language fuel it).1).stats = it.stats := by
  intro fuel it
  cases fuel with
  | zero => rfl
  | succ fuel =>
      cases hr : findRecipeRows s it.id with
      | none => rw [loadRecipeFuel_succ_noRecipe s language fuel hr]
      | some rrows =>
          rw [loadRecipeFuel_succ_found s language fuel (by rw [hr])]
          exact ItemModel.withRecipe_stats it _

theorem getWorkshopListByID_item_stats {s : Store} {listID : Nat}
    {language : String} {list : LoadedWorkshopList}
    (h : GetWorkshopListByID s listID language = .ok list) :
    ∀ li ∈ list.items,
      li.item.stats = (findListItemBase s li.itemID language).stats := by
  unfold GetWorkshopListByID at h
  cases hf : s.workshopLists.find? (fun l => l.id == listID) with
  | none => rw [hf] at h; cases h
  | some row =>
      rw [hf] at h
      cases h
      intro li hli
      rcases List.mem_map.mp hli with ⟨r, _, rfl⟩
      exact loadRecipeFuel_stats s language _ _

theorem findListItemBase_rune_codes (s : Store) (iid : Nat)
    (language : String) :
    ∀ st ∈ (findListItemBase s iid language).stats,
      ∀ rv ∈ st.statType.runes, ∃ rn ∈ s.runes, rv.code = rn.code := by
  unfold findListItemBase
  cases hf : s.items.find? (fun it => it.id == iid) with
  | none =>
      intro st hst
      simp [zeroItemModel, ItemModel.stats] at hst
  | some it =>
      intro st hst rv hrv
      simp only [ItemModel.stats] at hst
      rcases List.mem_map.mp hst with ⟨row, _, rfl⟩
      simp only [statTypeFor] at hrv
      rcases List.mem_map.mp hrv with ⟨rn, hrn, rfl⟩
      exact ⟨rn, List.mem_of_mem_filter hrn, rfl⟩

theorem addRuneList_mem (language : String) :
    ∀ (rvs : List RuneView) (acc : List RuneRequirement) (rq : RuneRequirement),
      rq ∈ addRuneList language rvs acc →
      rq ∈ acc ∨ ∃ rv ∈ rvs, rq = mkRuneRequirement language rv := by
  intro rvs
  induction rvs with
  | nil => intro acc rq h; exact Or.inl (by simpa [addRuneList] using h)
  | cons rn rest ih =>
      intro acc rq h
      unfold addRuneList at h
      by_cases hmem : acc.any (fun r => r.runeID == rn.id) = true
      · rw [if_pos hmem] at h
        rcases ih acc rq h with h | ⟨rv, hrv, hrq⟩
        · exact Or.inl h
        · exact Or.inr ⟨rv, List.mem_cons_of_mem rn hrv, hrq⟩
      · rw [if_neg hmem] at h
        rcases ih _ rq h with h | ⟨rv, hrv, hrq⟩
        · rcases List.mem_append.mp h with h | h
          · exact Or.inl h
          · simp at h
            exact Or.inr ⟨rn, List.mem_cons_self rn rest, h⟩
        · exact Or.inr ⟨rv, List.mem_cons_of_mem rn hrv, hrq⟩

theorem addStatRunes_mem (language : String) :
    ∀ (stats : List ItemStatView) (acc : List RuneRequirement)
      (rq : RuneRequirement),
      rq ∈ addStatRunes language stats acc →
      rq ∈ acc ∨ ∃ st ∈ stats, ∃ rv ∈ st.statType.runes,
        rq = mkRuneRequirement language rv := by
  intro stats
  induction stats with
  | nil => intro acc rq h; exact Or.inl (by simpa [addStatRunes] using h)
  | cons st rest ih =>
      intro acc rq h
      unfold addStatRunes at h
      rcases ih _ rq h with h | ⟨st', hst', rv, hrv, hrq⟩
      · rcases addRuneList_mem language _ acc rq h with h | ⟨rv, hrv, hrq⟩
        · exact Or.inl h
        · exact Or.inr ⟨st, List.mem_cons_self st rest, rv, hrv, hrq⟩
      · exact Or.inr ⟨st', List.mem_cons_of_mem st hst', rv, hrv, hrq⟩

theorem collectListRunes_mem (language : String) :
    ∀ (items : List LoadedListItem) (acc : List RuneRequirement)
      (rq : RuneRequirement),
      rq ∈ collectListRunes language items acc →
      rq ∈ acc ∨ ∃ li ∈ items, ∃ st ∈ li.item.stats,
        ∃ rv ∈ st.statType.runes, rq = mkRuneRequirement language rv := by
  intro items
  induction items with
  | nil => intro acc rq h; exact Or.inl (by simpa [collectListRunes] using h)
  | cons li rest ih =>
      intro acc rq h
      unfold collectListRunes at h
      rcases ih _ rq h with h | ⟨li', hli', st, hst, rv, hrv, hrq⟩
      · rcases addStatRunes_mem language _ acc rq h with
          h | ⟨st, hst, rv, hrv, hrq⟩
        · exact Or.inl h
        · exact Or.inr ⟨li, List.mem_cons_self li rest, st, hst, rv, hrv, hrq⟩
      · exact Or.inr
          ⟨li', List.mem_cons_of_mem li hli', st, hst, rv, hrv, hrq⟩

theorem mkRuneRequirement_name_ne_empty (language : String) (rv : RuneView)
    (h : rv.code ≠ "") : (mkRuneRequirement language rv).name ≠ "" := by
  unfold mkRuneRequirement
  cases rv.item with
  | none => simpa using h
  | some it =>
      simp only
      by_cases hname : (match it.translations.find?
          (fun (t : TranslationView) =>
            t.language == language && t.name != "") with
        | some t => t.name
        | none => "") = ""
      · by_cases hlen : decide (it.translations.length > 0) = true
        · by_cases hfirst : (match it.translations with
            | [] => ""
            | t :: _ => t.name) = ""
          · simp [hname, hlen, hfirst]
            exact h
          · simp [hname, hlen, hfirst]
        · simp [hname, hlen]
          exact h
      · simp [hname]

/-- Parametric store for C9: list 1 holds item 1 with stat type 100, whose
rune "fo" (weight 10) has underlying item 50; the item-translation table is
the parameter `ts`. -/
def storeRuneLang (ts : List ItemTranslationRow) : Store :=
  { items := [{ id := 1, ankaId := 0, typeAnkaId := 0, gfxID := 0 },
              { id := 50, ankaId := 0, typeAnkaId := 0, gfxID := 0 }]
    itemTranslations := ts
    itemTypes := []
    itemTypeTranslations := []
    auctionHouses := []
    auctionHouseTranslations := []
    recipes := []
    ingredients := []
    itemStats := [{ itemID := 1, statTypeID := 100 }]
    runes := [{ id := 1, code := "fo", statTypeID := 100, tier := "ba",
                weight := 10, itemID := some 50 }]
    workshopLists := [{ id := 1, userID := 7 }]
    workshopListItems := [{ workshopListID := 1, itemID := 1, quantity := 1 }] }

/-- C9, counterexample.  The rune's underlying item 50 has exactly one
translation — German, "Kraftrune" — and none in the requested language "en".
The claim's chain requires the output to fall back to that "first available
translation" and display "Kraftrune"; the code instead loads an empty
(language-filtered) translation list and falls through to the raw code
"fo".  Requesting "de" shows the translation exists and is used for its own
language. -/
theorem C9_counterexample :
    GetUniqueRunesForList
        (storeRuneLang [{ itemID := 50, language := "de",
                          name := "Kraftrune" }]) 1 "en" =
      .ok [{ runeID := 1, itemAnkaID := 0, typeAnkaID := 0, gfxID := 0,
             name := "fo", code := "fo", tier := "ba", weight := 10 }] ∧
    GetUniqueRunesForList
        (storeRuneLang [{ itemID := 50, language := "de",
                          name := "Kraftrune" }]) 1 "de" =
      .ok [{ runeID := 1, itemAnkaID := 0, typeAnkaID := 0, gfxID := 0,
             name := "Kraftrune", code := "fo", tier := "ba",
             weight := 10 }] ∧
    "fo" ≠ "Kraftrune" := by
  refine ⟨?_, ?_, by decide⟩ <;>
    simp [GetUniqueRunesForList, GetWorkshopListByID, storeRuneLang,
      LoadRecipeRecursive, loadRecipeFuel, findListItemBase, findRecipeRows,
      findItemWithType, itemTranslationsFor, itemTypeFor, statTypeFor,
      loadIngredientsWith, zeroIngredient, zeroItemModel,
      ItemModel.withRecipe, ItemModel.id, ItemModel.recipe, ItemModel.stats,
      collectListRunes, addStatRunes, addRuneList, mkRuneRequirement,
      List.insertionSort, List.orderedInsert]

/-- C9, amended.  (1) Display names are non-empty provided every rune code in
the store is non-empty (the fallback chain ends at the raw code; an empty
code with no usable translation yields an empty name).  (2) The chain never
reaches a translation in another language: for EVERY translation table `ts`
with no "en" rows for any item, the rune's display name is the raw code. -/
theorem C9_name_resolution :
    (∀ (s : Store) (listID : Nat) (language : String)
        (rs : List RuneRequirement),
        GetUniqueRunesForList s listID language = .ok rs →
        (∀ rn ∈ s.runes, rn.code ≠ "") →
        ∀ rq ∈ rs, rq.name ≠ "") ∧
    (∀ ts : List ItemTranslationRow,
        (∀ t ∈ ts, t.language ≠ "en") →
        GetUniqueRunesForList (storeRuneLang ts) 1 "en" =
          .ok [{ runeID := 1, itemAnkaID := 0, typeAnkaID := 0, gfxID := 0,
                 name := "fo", code := "fo", tier := "ba", weight := 10 }]) := by
  constructor
  · intro s listID language rs h hcodes rq hrq
    unfold GetUniqueRunesForList at h
    cases hw : GetWorkshopListByID s listID language with
    | error e => rw [hw] at h; cases h
    | ok list =>
        rw [hw] at h
        cases h
        have hrq2 : rq ∈ collectListRunes language list.items [] :=
          (List.perm_insertionSort _ _).mem_iff.mp hrq
        rcases collectListRunes_mem language list.items [] rq hrq2 with
          h | ⟨li, hli, st, hst, rv, hrv, rfl⟩
        · simp at h
        · have hstats := getWorkshopListByID_item_stats hw li hli
          rw [hstats] at hst
          rcases findListItemBase_rune_codes s li.itemID language st hst
            rv hrv with ⟨rn, hrn, hcode⟩
          exact mkRuneRequirement_name_ne_empty language rv
            (hcode ▸ hcodes rn hrn)
  · intro ts hts
    have h50 : itemTranslationsFor (storeRuneLang ts) 50 "en" = [] := by
      unfold itemTranslationsFor storeRuneLang
      simp only
      rw [List.filter_eq_nil_iff.mpr, List.map_nil]
      intro t ht
      simp only [Bool.and_eq_true, beq_iff_eq, not_and]
      intro _
      exact hts t ht
    simp only [storeRuneLang] at h50
    simp [GetUniqueRunesForList, GetWorkshopListByID, storeRuneLang,
      LoadRecipeRecursive, loadRecipeFuel, findListItemBase, findRecipeRows,
      findItemWithType, itemTypeFor, statTypeFor,
      loadIngredientsWith, zeroIngredient, zeroItemModel,
      ItemModel.withRecipe, ItemModel.id, ItemModel.recipe, ItemModel.stats,
      collectListRunes, addStatRunes, addRuneList, mkRuneRequirement,
      List.insertionSort, List.orderedInsert, h50]

/-- The single German translation row used by the C9 witness. -/
def germanRow : ItemTranslationRow :=
  { itemID := 50, language := "de", name := "Kraftrune" }

/-- C9, witness: both amended parts applied to the one-German-translation
store — the output name is the raw code "fo" and is non-empty. -/
theorem C9_name_resolution_witness :
    (∀ t ∈ [germanRow], t.language ≠ "en") ∧
    (∀ rn ∈ (storeRuneLang [germanRow]).runes, rn.code ≠ "") ∧
    GetUniqueRunesForList (storeRuneLang [germanRow]) 1 "en" =
      .ok [{ runeID := 1, itemAnkaID := 0, typeAnkaID := 0, gfxID := 0,
             name := "fo", code := "fo", tier := "ba", weight := 10 }] ∧
    (∀ rq ∈ [({ runeID := 1, itemAnkaID := 0, typeAnkaID := 0, gfxID := 0,
                name := "fo", code := "fo", tier := "ba", weight := 10 } :
        RuneRequirement)], rq.name ≠ "") := by
  have hb := C9_name_resolution.2 [germanRow] (by decide)
  exact ⟨by decide, by decide, hb,
    C9_name_resolution.1 _ 1 "en" _ hb (by decide)⟩

/-! ## Claim C10 — grouping is keyed by the translated marketplace name

The claim (and the grouping function's own documentation,
workshop_database.go 231-234) describe buckets keyed by the auction house's
translated display name.  But no query in the pipeline preloads
`Type.AuctionHouse` (database.go 1270-1273 and workshop_database.go 43-48
preload only translation collections), so the
`Type != nil && Type.AuctionHouse != nil` branch of workshop_database.go
304-310 never fires and every resource leaves `mkResourceRequirement` with
no auction-house data at all.  The invariant is proved below by a
tree-shaped predicate on loaded item models. -/

/-- A resource entry carrying no auction-house data: the zero values the
`else` paths of workshop_database.go 304-310 leave behind. -/
def NoAuctionHouseData (r : ResourceRequirement) : Prop :=
  r.auctionHouseID = none ∧ r.auctionHouseName = "" ∧
    r.auctionHouseDisplayOrder = 0

mutual
/-- Every type reachable in the crafting tree has a nil auction-house
pointer (the state of every item the pipeline ever loads). -/
def ItemModel.treeNoAH : ItemModel → Prop
  | .mk _ _ _ _ _ ty _ r =>
      (∀ a, ty = some a → a.auctionHouse = none) ∧ recipeTreeNoAH r
termination_by it => sizeOf it
decreasing_by
  simp

def recipeTreeNoAH : Option RecipeModel → Prop
  | none => True
  | some r => ingsTreeNoAH r.ingredients
termination_by o => sizeOf o
decreasing_by
  have h := RecipeOf.sizeOf_ingredients_lt r
  simp
  omega

def ingsTreeNoAH : List IngredientModel → Prop
  | [] => True
  | ing :: rest => ing.item.treeNoAH ∧ ingsTreeNoAH rest
termination_by l => sizeOf l
decreasing_by
  · have h := IngredientOf.sizeOf_item_lt ing
    simp
    omega
  · simp
end

theorem ItemModel.treeNoAH_mk (i : Nat) (a t g : Int)
    (ts : List TranslationView) (ty : Option ItemTypeView)
    (st : List ItemStatView) (r : Option (RecipeOf ItemModel)) :
    (ItemModel.mk i a t g ts ty st r).treeNoAH ↔
      ((∀ x, ty = some x → x.auctionHouse = none) ∧ recipeTreeNoAH r) := by
  simp only [ItemModel.treeNoAH]

theorem recipeTreeNoAH_none : recipeTreeNoAH none := by
  simp only [recipeTreeNoAH]

theorem recipeTreeNoAH_some (r : RecipeModel) :
    recipeTreeNoAH (some r) ↔ ingsTreeNoAH r.ingredients := by
  simp only [recipeTreeNoAH]

theorem ingsTreeNoAH_nil : ingsTreeNoAH [] := by
  simp only [ingsTreeNoAH]

theorem ingsTreeNoAH_cons (ing : IngredientModel)
    (rest : List IngredientModel) :
    ingsTreeNoAH (ing :: rest) ↔ ing.item.treeNoAH ∧ ingsTreeNoAH rest := by
  simp only [ingsTreeNoAH]

theorem ItemModel.treeNoAH_type {it : ItemModel} (h : it.treeNoAH) :
    ∀ a, it.type = some a → a.auctionHouse = none := by
  cases it with
  | mk i a t g ts ty st r =>
      exact ((ItemModel.treeNoAH_mk i a t g ts ty st r).mp h).1

theorem ItemModel.treeNoAH_recipe {it : ItemModel} (h : it.treeNoAH) :
    recipeTreeNoAH it.recipe := by
  cases it with
  | mk i a t g ts ty st r =>
      exact ((ItemModel.treeNoAH_mk i a t g ts ty st r).mp h).2

theorem zeroItemModel_treeNoAH : zeroItemModel.treeNoAH :=
  (ItemModel.treeNoAH_mk 0 0 0 0 [] none [] none).mpr
    ⟨fun a ha => Option.noConfusion ha, recipeTreeNoAH_none⟩

/-- `itemTypeFor` never resolves an auction house: the query behind it
preloads only `Type.Translations`. -/
theorem itemTypeFor_auctionHouse (s : Store) (t : Int) (language : String) :
    ∀ a, itemTypeFor s t language = some a → a.auctionHouse = none := by
  intro a ha
  unfold itemTypeFor at ha
  cases hf : s.itemTypes.find? (fun x => x.ankaId == t) with
  | none => rw [hf] at ha; cases ha
  | some b =>
      rw [hf] at ha
      simp only [Option.map_some'] at ha
      cases ha
      rfl

theorem findItemWithType_treeNoAH {s : Store} {iid : Nat}
    {language : String} {it : ItemModel}
    (h : findItemWithType s iid language = some it) : it.treeNoAH := by
  unfold findItemWithType at h
  cases hf : s.items.find? (fun x => x.id == iid) with
  | none => rw [hf] at h; cases h
  | some row =>
      rw [hf] at h
      simp only [Option.map_some'] at h
      cases h
      exact (ItemModel.treeNoAH_mk _ _ _ _ _ _ _ _).mpr
        ⟨itemTypeFor_auctionHouse s row.typeAnkaId language,
         recipeTreeNoAH_none⟩

theorem findListItemBase_treeNoAH (s : Store) (iid : Nat)
    (language : String) : (findListItemBase s iid language).treeNoAH := by
  unfold findListItemBase
  cases hf : s.items.find? (fun x => x.id == iid) with
  | none => exact zeroItemModel_treeNoAH
  | some row =>
      exact (ItemModel.treeNoAH_mk _ _ _ _ _ _ _ _).mpr
        ⟨itemTypeFor_auctionHouse s row.typeAnkaId language,
         recipeTreeNoAH_none⟩

theorem treeNoAH_withRecipe {it : ItemModel}
    (h1 : ∀ a, it.type = some a → a.auctionHouse = none)
    {k : Nat} {l : List IngredientModel} (h2 : ingsTreeNoAH l) :
    (it.withRecipe { itemID := k, ingredients := l }).treeNoAH := by
  cases it with
  | mk i a t g ts ty st r =>
      rw [ItemModel.withRecipe]
      exact (ItemModel.treeNoAH_mk _ _ _ _ _ _ _ _).mpr
        ⟨h1, (recipeTreeNoAH_some _).mpr h2⟩

theorem ingsTreeNoAH_map_zero : ∀ rows : List IngredientRow,
    ingsTreeNoAH (rows.map zeroIngredient)
  | [] => ingsTreeNoAH_nil
  | row :: rest =>
      (ingsTreeNoAH_cons _ _).mpr
        ⟨zeroItemModel_treeNoAH, ingsTreeNoAH_map_zero rest⟩

/-- The ingredient loop only produces items whose trees carry no auction
house, provided the item lookup and the recursive loader do. -/
theorem loadIngredientsWith_treeNoAH
    (load : ItemModel → ItemModel × Option String)
    (find : Nat → Option ItemModel)
    (hfind : ∀ iid it, find iid = some it → it.treeNoAH)
    (hload : ∀ it, it.treeNoAH → (load it).1.treeNoAH) :
    ∀ rows : List IngredientRow,
      ingsTreeNoAH (loadIngredientsWith load find rows).1
  | [] => by rw [loadIngredientsWith_nil]; exact ingsTreeNoAH_nil
  | row :: rest => by
      cases hf : find row.itemID with
      | none =>
          rw [loadIngredientsWith_cons_missing load find rest hf]
          exact (ingsTreeNoAH_cons _ _).mpr
            ⟨zeroItemModel_treeNoAH, ingsTreeNoAH_map_zero rest⟩
      | some base =>
          rcases hl : load base with ⟨it, e⟩
          cases e with
          | some err =>
              rw [loadIngredientsWith_cons_loadErr load find rest hf hl]
              exact (ingsTreeNoAH_cons _ _).mpr
                ⟨zeroItemModel_treeNoAH, ingsTreeNoAH_map_zero rest⟩
          | none =>
              rw [loadIngredientsWith_cons_ok load find rest hf hl]
              refine (ingsTreeNoAH_cons _ _).mpr
                ⟨?_, loadIngredientsWith_treeNoAH load find hfind hload rest⟩
              have hbase : (load base).1.treeNoAH :=
                hload base (hfind _ _ hf)
              rw [hl] at hbase
              exact hbase

/-- The recursive loader preserves the no-auction-house tree invariant at
every fuel level: the branch of workshop_database.go 304-310 that reads
`Type.AuctionHouse` can never see a non-nil pointer. -/
theorem loadRecipeFuel_treeNoAH (s : Store) (language : String) :
    ∀ (fuel : Nat) (it : ItemModel), it.treeNoAH →
      (loadRecipeFuel s language fuel it).1.treeNoAH
  | 0, it, h => by rw [loadRecipeFuel_zero]; exact h
  | fuel + 1, it, h => by
      cases hr : findRecipeRows s it.id with
      | none =>
          rw [loadRecipeFuel_succ_noRecipe s language fuel hr]
          exact h
      | some pr =>
          rcases pr with ⟨r, rows⟩
          rw [loadRecipeFuel_succ_found s language fuel hr]
          exact treeNoAH_withRecipe (ItemModel.treeNoAH_type h)
            (loadIngredientsWith_treeNoAH _ _
              (fun iid x hx => findItemWithType_treeNoAH hx)
              (fun x hx => loadRecipeFuel_treeNoAH s language fuel x hx)
              rows)

theorem mkResourceRequirement_noAH (ing : IngredientModel) (needed : Int)
    (hty : ∀ a, ing.item.type = some a → a.auctionHouse = none) :
    NoAuctionHouseData (mkResourceRequirement ing needed) := by
  unfold NoAuctionHouseData mkResourceRequirement
  cases h : ing.item.type with
  | none => simp
  | some ty => simp [hty ty h]

theorem recordIngredient_noAH {resources : ResourceMap}
    {ing : IngredientModel} (needed : Int)
    (hty : ∀ a, ing.item.type = some a → a.auctionHouse = none)
    (hres : ∀ r ∈ resources, NoAuctionHouseData r) :
    ∀ r ∈ recordIngredient resources ing needed, NoAuctionHouseData r := by
  intro r hr
  unfold recordIngredient at hr
  by_cases hmem : resources.any (fun x => x.itemID == ing.itemID) = true
  · rw [if_pos hmem] at hr
    rcases List.mem_map.mp hr with ⟨r0, hr0, hrr⟩
    by_cases hk : r0.itemID = ing.itemID
    · simp only [hk, beq_self_eq_true, if_pos] at hrr
      have h0 := hres r0 hr0
      unfold NoAuctionHouseData at h0 ⊢
      rw [← hrr]
      exact h0
    · simp only [beq_iff_eq, hk, if_neg, if_false] at hrr
      rw [← hrr]
      exact hres r0 hr0
  · rw [if_neg hmem] at hr
    rcases List.mem_append.mp hr with h1 | h1
    · exact hres r h1
    · rw [List.mem_singleton.mp h1]
      exact mkResourceRequirement_noAH ing needed hty

/-- The aggregation fold preserves the absence of auction-house data when
every tree it walks satisfies the invariant. -/
theorem noAH_aggregateIngredients :
    ∀ (l : List IngredientModel) (m : Int) (acc : ResourceMap),
      ingsTreeNoAH l → (∀ r ∈ acc, NoAuctionHouseData r) →
      ∀ r ∈ aggregateIngredients l m acc, NoAuctionHouseData r := by
  refine aggregateIngredients.induct
    (fun o m acc => recipeTreeNoAH o →
      (∀ r ∈ acc, NoAuctionHouseData r) →
      ∀ r ∈ aggregateRecipeResources o m acc, NoAuctionHouseData r)
    (fun l m acc => ingsTreeNoAH l →
      (∀ r ∈ acc, NoAuctionHouseData r) →
      ∀ r ∈ aggregateIngredients l m acc, NoAuctionHouseData r)
    ?_ ?_ ?_ ?_
  · intro m acc _ hacc
    simpa [aggregateRecipeResources] using hacc
  · intro recipe m acc ih hrec hacc
    rw [aggregateRecipeResources]
    exact ih ((recipeTreeNoAH_some recipe).mp hrec) hacc
  · intro m acc _ hacc
    simpa [aggregateIngredients] using hacc
  · intro ing rest m acc hneed ih1a ih1b ih2 hl hacc
    rw [aggregateIngredients.eq_2]
    have hing := (ingsTreeNoAH_cons ing rest).mp hl
    exact ih2 hing.2
      (ih1b (ItemModel.treeNoAH_recipe hing.1)
        (recordIngredient_noAH _ (ItemModel.treeNoAH_type hing.1) hacc))

theorem noAH_aggregateRecipeResources (o : Option RecipeModel) (m : Int)
    (acc : ResourceMap) (ho : recipeTreeNoAH o)
    (hacc : ∀ r ∈ acc, NoAuctionHouseData r) :
    ∀ r ∈ aggregateRecipeResources o m acc, NoAuctionHouseData r := by
  cases o with
  | none => simpa [aggregateRecipeResources] using hacc
  | some recipe =>
      rw [aggregateRecipeResources]
      exact noAH_aggregateIngredients recipe.ingredients m acc
        ((recipeTreeNoAH_some recipe).mp ho) hacc

theorem noAH_aggregateListResources :
    ∀ (items : List LoadedListItem) (acc : ResourceMap),
      (∀ li ∈ items, li.item.treeNoAH) →
      (∀ r ∈ acc, NoAuctionHouseData r) →
      ∀ r ∈ aggregateListResources items acc, NoAuctionHouseData r
  | [], acc, _, hacc => by simpa [aggregateListResources] using hacc
  | li :: rest, acc, hitems, hacc => by
      have hli : li.item.treeNoAH := hitems li (by simp)
      have hrest : ∀ x ∈ rest, x.item.treeNoAH :=
        fun x hx => hitems x (by simp [hx])
      cases hr : li.item.recipe with
      | none =>
          rw [aggregateListResources_cons_none rest acc hr]
          exact noAH_aggregateListResources rest acc hrest hacc
      | some r =>
          rw [aggregateListResources_cons_some rest acc hr]
          refine noAH_aggregateListResources rest _ hrest ?_
          have hrec : recipeTreeNoAH (some r) := by
            have h2 := ItemModel.treeNoAH_recipe hli
            rwa [hr] at h2
          exact noAH_aggregateRecipeResources (some r) li.quantity acc
            hrec hacc

/-- Every item a loaded workshop list carries satisfies the tree
invariant: it is built by `findListItemBase` and the recursive loader,
neither of which ever populates an auction house. -/
theorem noAH_GetWorkshopListByID {s : Store} {listID : Nat}
    {language : String} {list : LoadedWorkshopList}
    (h : GetWorkshopListByID s listID language = .ok list) :
    ∀ li ∈ list.items, li.item.treeNoAH := by
  unfold GetWorkshopListByID at h
  cases hf : s.workshopLists.find? (fun l => l.id == listID) with
  | none => rw [hf] at h; cases h
  | some w =>
      rw [hf] at h
      cases h
      intro li hli
      rcases List.mem_map.mp hli with ⟨row, _, hrow⟩
      rw [← hrow]
      exact loadRecipeFuel_treeNoAH s language 3
        (findListItemBase s row.itemID language)
        (findListItemBase_treeNoAH s row.itemID language)

/-- Store for the concrete C10 evaluation: two distinct auction houses
(ids 201 and 202, display orders 1 and 2) BOTH carry the requested-language
("en") translation "Market"; item 1's recipe pulls one resource from each.
The claim expects a "Market" bucket; the program, never loading
`Type.AuctionHouse`, produces the empty-label bucket instead. -/
def storeSharedName : Store :=
  { items := [{ id := 1, ankaId := 0, typeAnkaId := 0, gfxID := 0 },
              { id := 2, ankaId := 0, typeAnkaId := 101, gfxID := 0 },
              { id := 3, ankaId := 0, typeAnkaId := 102, gfxID := 0 }]
    itemTranslations := [{ itemID := 2, language := "en", name := "Bronze Ore" },
                         { itemID := 3, language := "en", name := "Amber Dust" }]
    itemTypes := [{ id := 11, ankaId := 101, auctionHouseID := some 201 },
                  { id := 12, ankaId := 102, auctionHouseID := some 202 }]
    itemTypeTranslations := []
    auctionHouses := [{ id := 201, code := "a", displayOrder := 1 },
                      { id := 202, code := "b", displayOrder := 2 }]
    auctionHouseTranslations :=
      [{ auctionHouseID := 201, language := "en", name := "Market" },
       { auctionHouseID := 202, language := "en", name := "Market" }]
    recipes := [{ id := 10, itemID := 1 }]
    ingredients := [{ recipeID := 10, itemID := 2, quantity := 1 },
                    { recipeID := 10, itemID := 3, quantity := 1 }]
    itemStats := []
    runes := []
    workshopLists := [{ id := 1, userID := 7 }]
    workshopListItems := [{ workshopListID := 1, itemID := 1, quantity := 1 }] }

/-- The Bronze Ore entry the pipeline produces on `storeSharedName`: its
type points at auction house 201, yet it carries no auction-house data. -/
def bronzeRes : ResourceRequirement :=
  { itemID := 2, itemAnkaID := 0, typeAnkaID := 101, gfxID := 0,
    name := "Bronze Ore", totalNeeded := 1, auctionHouseID := none,
    auctionHouseName := "", auctionHouseDisplayOrder := 0 }

/-- The Amber Dust entry the pipeline produces on `storeSharedName`. -/
def amberRes : ResourceRequirement :=
  { itemID := 3, itemAnkaID := 0, typeAnkaID := 102, gfxID := 0,
    name := "Amber Dust", totalNeeded := 1, auctionHouseID := none,
    auctionHouseName := "", auctionHouseDisplayOrder := 0 }

theorem storeSharedName_resources :
    GetAllResourcesForList storeSharedName 1 "en" =
      .ok [bronzeRes, amberRes] := by
  simp [bronzeRes, amberRes, GetAllResourcesForList, GetWorkshopListByID,
    storeSharedName, LoadRecipeRecursive, loadRecipeFuel, findListItemBase,
    findRecipeRows, findItemWithType, itemTranslationsFor, itemTypeFor,
    loadIngredientsWith, zeroIngredient, zeroItemModel,
    ItemModel.withRecipe, ItemModel.id, ItemModel.recipe,
    aggregateListResources, aggregateRecipeResources,
    aggregateIngredients, recordIngredient, mkResourceRequirement,
    ItemModel.translations, ItemModel.type, ItemModel.ankaId,
    ItemModel.typeAnkaId, ItemModel.gfxID]

/-- C10: the claim says the grouping key is the marketplace's translated
display name.  The code cannot do this: no query in the pipeline preloads
`Type.AuctionHouse` (database.go 1270-1273 and workshop_database.go 43-48
preload only translation collections), so the
`Type != nil && Type.AuctionHouse != nil` branch of workshop_database.go
304-310 never fires — contradicting the function's own documentation
(workshop_database.go 231-234).  (a) For EVERY store, list and language,
every resource of a successful `GetAllResourcesForList` carries no
auction-house data: id `none`, name `""`, display order `0`.  (b) On a
store whose two auction houses BOTH have the "en" translation "Market",
grouping yields the single empty-label bucket with order `[""]` — never the
claimed "Market" bucket — even though (c) every auction house of that store
has a requested-language translation named "Market". -/
theorem C10_group_by_translated_name :
    (∀ (s : Store) (listID : Nat) (language : String)
        (rs : List ResourceRequirement),
        GetAllResourcesForList s listID language = .ok rs →
        ∀ r ∈ rs, NoAuctionHouseData r) ∧
    (GetResourcesGroupedByAuctionHouse storeSharedName 1 "en" =
      .ok ([("", [amberRes, bronzeRes])], [""])) ∧
    (∀ ah ∈ storeSharedName.auctionHouses,
      ∃ t ∈ storeSharedName.auctionHouseTranslations,
        t.auctionHouseID = ah.id ∧ t.language = "en" ∧
          t.name = "Market") := by
  refine ⟨?_, ?_, ?_⟩
  · intro s listID language rs h
    unfold GetAllResourcesForList at h
    cases hW : GetWorkshopListByID s listID language with
    | error e => rw [hW] at h; cases h
    | ok list =>
        rw [hW] at h
        cases h
        exact noAH_aggregateListResources list.items []
          (noAH_GetWorkshopListByID hW)
          (fun r hr => absurd hr (List.not_mem_nil r))
  · unfold GetResourcesGroupedByAuctionHouse
    rw [storeSharedName_resources]
    simp [bronzeRes, amberRes, groupResourcesByAuctionHouse, groupedByName,
      appendToGroup, groupOf, displayOrderMap, displayOrderOf,
      List.insertionSort, List.orderedInsert]
    decide
  · decide

/-- C10, witness: part (a) applied to `storeSharedName` — the pipeline
succeeds and both of its resources carry no auction-house data. -/
theorem C10_group_by_translated_name_witness :
    GetAllResourcesForList storeSharedName 1 "en" =
      .ok [bronzeRes, amberRes] ∧
    ∀ r ∈ [bronzeRes, amberRes], NoAuctionHouseData r :=
  ⟨storeSharedName_resources,
   C10_group_by_translated_name.1 storeSharedName 1 "en"
     [bronzeRes, amberRes] storeSharedName_resources⟩


end GofusRetroDB
